import Mathlib

/-!
Shallow embedding of the netcode core of the tile-based multiplayer game
(crates `shared`, `server`, `client`), together with proofs about the
pathfinder, the skills level computation, the server action/woodcutting
pipeline, delta replication, and the client's reconciliation and
interpolation systems.

Modelling conventions:
* `u32`/`u64`/`usize` values are modelled as `Nat`; where a `u32` addition
  can wrap around and the wrapping is observable, the reduction
  `% 4294967296` is written explicitly.
* `f32`/`f64` time and timer values are modelled as `Rat` with exact
  literals.
* `HashMap`/`HashSet` are modelled as association lists / lists with
  first-match lookup; `insert` conses, so the newest binding wins,
  matching overwrite semantics.
* Rust `while` loops that are not structurally bounded take an explicit
  fuel argument; theorems about them hold for every fuel.
-/

set_option maxHeartbeats 1000000

namespace GameCore

/-- Association-list lookup: first binding wins (models `HashMap::get`). -/
def alookup {α β : Type} [DecidableEq α] : List (α × β) → α → Option β
  | [], _ => none
  | (k, v) :: rest, a => if k = a then some v else alookup rest a

/-- Association-list insert (models `HashMap::insert`, newest binding wins). -/
def ainsert {α β : Type} [DecidableEq α] (l : List (α × β)) (k : α) (v : β) :
    List (α × β) :=
  (k, v) :: l

/-- Replace the value at the first binding of `k`, if present
(models `HashMap::get_mut` followed by a mutation). -/
def aupdate {α β : Type} [DecidableEq α] : List (α × β) → α → β → List (α × β)
  | [], _, _ => []
  | (k', v') :: rest, k, v =>
    if k' = k then (k, v) :: rest else (k', v') :: aupdate rest k v

/-! ## shared/src/tile_system.rs -/

/-- `TilePosition`: integer 2-D lattice coordinate. -/
structure TilePosition where
  x : Int
  y : Int
deriving DecidableEq, Repr

namespace TilePosition

/-- `TilePosition::distance_to`: Manhattan distance. -/
def distance_to (a b : TilePosition) : Int :=
  (a.x - b.x).natAbs + (a.y - b.y).natAbs

/-- `TilePosition::neighbors`: the four cardinal neighbours, in source order. -/
def neighbors (p : TilePosition) : List TilePosition :=
  [⟨p.x + 1, p.y⟩, ⟨p.x - 1, p.y⟩, ⟨p.x, p.y + 1⟩, ⟨p.x, p.y - 1⟩]

/-- `TilePosition::neighbors_diagonal`: the eight neighbours, in source order. -/
def neighbors_diagonal (p : TilePosition) : List TilePosition :=
  [⟨p.x + 1, p.y⟩, ⟨p.x - 1, p.y⟩, ⟨p.x, p.y + 1⟩, ⟨p.x, p.y - 1⟩,
   ⟨p.x + 1, p.y + 1⟩, ⟨p.x + 1, p.y - 1⟩, ⟨p.x - 1, p.y + 1⟩, ⟨p.x - 1, p.y - 1⟩]

end TilePosition

/-! ## shared/src/pathfinding.rs -/

/-- `PathNode` of the A* search. The `i32` costs are modelled as `Nat`:
they are sums of the nonnegative step costs 10/14 and the nonnegative
heuristic. -/
structure PathNode where
  position : TilePosition
  g_cost : Nat
  h_cost : Nat
  f_cost : Nat
deriving DecidableEq, Repr

/-- `Pathfinder`: obstacle set (modelled as a list; membership is what
matters) plus the diagonal flag. -/
structure Pathfinder where
  obstacles : List TilePosition
  allow_diagonal : Bool
deriving DecidableEq, Repr

namespace Pathfinder

/-- `Pathfinder::is_walkable`. -/
def is_walkable (pf : Pathfinder) (pos : TilePosition) : Bool :=
  decide (pos ∉ pf.obstacles)

/-- `Pathfinder::heuristic`: Manhattan distance times 10. -/
def heuristic (a b : TilePosition) : Nat :=
  ((a.x - b.x).natAbs + (a.y - b.y).natAbs) * 10

/-- The neighbour enumeration the search uses, per the `allow_diagonal` flag. -/
def neighborList (diag : Bool) (p : TilePosition) : List TilePosition :=
  if diag then p.neighbors_diagonal else p.neighbors

/-- `BinaryHeap::pop` on `PathNode`s: the node that is greatest in the
reversed order of `impl Ord for PathNode`, i.e. one of lowest `f_cost`,
ties broken by lowest `h_cost`.  Rust's heap breaks remaining ties
arbitrarily; the model keeps the earliest such node. Returns the popped
node and the remaining nodes. -/
def popBest : List PathNode → Option (PathNode × List PathNode)
  | [] => none
  | n :: rest =>
    match popBest rest with
    | none => some (n, [])
    | some (m, rest') =>
      if m.f_cost < n.f_cost ∨ (m.f_cost = n.f_cost ∧ m.h_cost < n.h_cost) then
        some (m, n :: rest')
      else
        some (n, rest)

/-- The mutable state of `find_path_a_star`'s loop. -/
structure SearchState where
  open_set : List PathNode
  came_from : List (TilePosition × TilePosition)
  g_score : List (TilePosition × Nat)

/-- `reconstruct_path`'s loop, following `came_from` links.  The Rust code
builds the reversed list and reverses it at the end; this recursion
produces the same final (start-to-goal) order directly.  The fuel bounds
the number of followed links; under the search invariant the real chain
is strictly shorter than the fuel `reconstruct_path` passes, so the
function agrees with Rust's unbounded loop. -/
def reconstructGo (cf : List (TilePosition × TilePosition)) :
    Nat → TilePosition → List TilePosition
  | 0, cur => [cur]
  | fuel + 1, cur =>
    match alookup cf cur with
    | none => [cur]
    | some prev => reconstructGo cf fuel prev ++ [cur]

/-- `Pathfinder::reconstruct_path`. -/
def reconstruct_path (cf : List (TilePosition × TilePosition))
    (cur : TilePosition) : List TilePosition :=
  reconstructGo cf (2 * cf.length + 2) cur

/-- The step cost inside the neighbour loop: 14 when the step is
diagonal, 10 otherwise. -/
def moveCost (cur neighbor : TilePosition) : Nat :=
  if (cur.x - neighbor.x).natAbs + (cur.y - neighbor.y).natAbs = 2 then 14 else 10

/-- `tentative_g_score` (missing scores read as `i32::MAX`). -/
def tentativeScore (st : SearchState) (cur neighbor : TilePosition) : Nat :=
  (alookup st.g_score cur).getD 2147483647 + moveCost cur neighbor

/-- The `for neighbor in neighbors` body of `find_path_a_star`. -/
def stepNeighbor (pf : Pathfinder) (goal cur : TilePosition)
    (st : SearchState) (neighbor : TilePosition) : SearchState :=
  if ¬ pf.is_walkable neighbor then st
  else if tentativeScore st cur neighbor <
      (alookup st.g_score neighbor).getD 2147483647 then
    { open_set := ⟨neighbor, tentativeScore st cur neighbor,
        heuristic neighbor goal,
        tentativeScore st cur neighbor + heuristic neighbor goal⟩ :: st.open_set,
      came_from := ainsert st.came_from neighbor cur,
      g_score := ainsert st.g_score neighbor (tentativeScore st cur neighbor) }
  else st

/-- The `while let Some(current_node) = open_set.pop()` loop of
`find_path_a_star`; the fuel bounds the number of iterations (the Rust
loop is unbounded — on obstacle sets that do not separate `start` from an
unreachable `goal` region it does not terminate). -/
def searchLoop (pf : Pathfinder) (goal : TilePosition) :
    Nat → SearchState → Option (List TilePosition)
  | 0, _ => none
  | fuel + 1, st =>
    match popBest st.open_set with
    | none => none
    | some (current_node, rest) =>
      if current_node.position = goal then
        some (reconstruct_path st.came_from current_node.position)
      else
        let st' := (neighborList pf.allow_diagonal current_node.position).foldl
          (stepNeighbor pf goal current_node.position)
          { st with open_set := rest }
        searchLoop pf goal fuel st'

/-- `Pathfinder::find_path_a_star`. -/
def find_path_a_star (pf : Pathfinder) (start goal : TilePosition)
    (fuel : Nat) : Option (List TilePosition) :=
  if start = goal then some [goal]
  else if ¬ pf.is_walkable goal then none
  else
    let h0 := heuristic start goal
    searchLoop pf goal fuel
      { open_set := [⟨start, 0, h0, h0⟩],
        came_from := [],
        g_score := [(start, 0)] }

/-- The invariant maintained by `find_path_a_star`'s loop.  `came_from`
links are legal walkable neighbour steps whose `g_score`s strictly
increase along the link (by at least the minimal step cost 10), every
scored node other than `start` has a link, `start` keeps score 0 and never
gains a link, and scores are bounded by the number of recorded links. -/
structure Inv (pf : Pathfinder) (start : TilePosition) (st : SearchState) : Prop where
  open_defined : ∀ n ∈ st.open_set, (alookup st.g_score n.position).isSome
  start_g : alookup st.g_score start = some 0
  start_no_pred : alookup st.came_from start = none
  pred_total : ∀ n g, alookup st.g_score n = some g →
    n = start ∨ (alookup st.came_from n).isSome
  pred_ok : ∀ n c, alookup st.came_from n = some c →
    (alookup st.g_score c).isSome ∧ n ∈ neighborList pf.allow_diagonal c ∧
      pf.is_walkable n = true
  pred_lt : ∀ n c gn gc, alookup st.came_from n = some c →
    alookup st.g_score n = some gn → alookup st.g_score c = some gc →
    gc + 10 ≤ gn
  g_bound : ∀ n g, alookup st.g_score n = some g → g ≤ 14 * st.came_from.length

end Pathfinder

/-! ## shared/src/actions.rs -/

/-- `GameAction`. `PlayerId`, entity ids and item ids are modelled as `Nat`. -/
inductive GameAction where
  | Move (path : List TilePosition)
  | Attack (target : Nat)
  | UseItem (item_id : Nat)
  | Interact (entity_id : Nat)
  | ChopTree (tree_entity_id : Nat)
deriving DecidableEq, Repr

namespace GameAction

/-- `GameAction::tick_delay`: the base tick delay the shared crate reports. -/
def tick_delay : GameAction → Nat
  | .Move _ => 1
  | .Attack _ => 4
  | .UseItem _ => 1
  | .Interact _ => 2
  | .ChopTree _ => 4

end GameAction

/-! ## shared/src/items.rs -/

/-- `ItemType`. -/
inductive ItemType where
  | BronzeAxe | IronAxe | SteelAxe | Logs | OakLogs | WillowLogs | Shrimp | Salmon
deriving DecidableEq, Repr

/-- `ItemDefinition::get(..).stackable` (the only definition field the
modelled code consults). -/
def ItemType.stackable : ItemType → Bool
  | .BronzeAxe => false
  | .IronAxe => false
  | .SteelAxe => false
  | .Logs => true
  | .OakLogs => true
  | .WillowLogs => true
  | .Shrimp => true
  | .Salmon => true

/-- `ItemStack`. -/
structure ItemStack where
  item_type : ItemType
  quantity : Nat
deriving DecidableEq, Repr

/-! ## shared/src/inventory.rs -/

/-- `Inventory`. -/
structure Inventory where
  slots : List (Option ItemStack)
  max_slots : Nat
deriving DecidableEq, Repr

namespace Inventory

/-- `Inventory::new`. -/
def new (max_slots : Nat) : Inventory :=
  ⟨List.replicate max_slots none, max_slots⟩

/-- First pass of `add_item` for stackable items: bump the first stack of
the same type.  Returns the updated slots on success. -/
def addToStack (item_type : ItemType) (quantity : Nat) :
    List (Option ItemStack) → Option (List (Option ItemStack))
  | [] => none
  | some stack :: rest =>
    if stack.item_type = item_type then
      some (some ⟨stack.item_type, (stack.quantity + quantity) % 4294967296⟩ :: rest)
    else
      (addToStack item_type quantity rest).map (some stack :: ·)
  | none :: rest =>
    (addToStack item_type quantity rest).map (none :: ·)

/-- Second pass of `add_item`: place the stack in the first empty slot. -/
def addToEmpty (item_type : ItemType) (quantity : Nat) :
    List (Option ItemStack) → Option (List (Option ItemStack))
  | [] => none
  | none :: rest => some (some ⟨item_type, quantity⟩ :: rest)
  | some stack :: rest =>
    (addToEmpty item_type quantity rest).map (some stack :: ·)

/-- `Inventory::add_item`.  Returns the Rust `bool` and the mutated
inventory. -/
def add_item (inv : Inventory) (item_type : ItemType) (quantity : Nat) :
    Bool × Inventory :=
  let viaStack : Option (List (Option ItemStack)) :=
    if item_type.stackable then addToStack item_type quantity inv.slots else none
  match viaStack with
  | some slots' => (true, { inv with slots := slots' })
  | none =>
    match addToEmpty item_type quantity inv.slots with
    | some slots' => (true, { inv with slots := slots' })
    | none => (false, inv)

/-- `Inventory::count_item`. -/
def count_item (inv : Inventory) (item_type : ItemType) : Nat :=
  (inv.slots.filterMap id).foldl
    (fun acc stack => if stack.item_type = item_type then acc + stack.quantity else acc) 0

/-- `Inventory::has_item`. -/
def has_item (inv : Inventory) (item_type : ItemType) (quantity : Nat) : Bool :=
  quantity ≤ inv.count_item item_type

/-- `Inventory::has_any_axe`: steel, then iron, then bronze. -/
def has_any_axe (inv : Inventory) : Option ItemType :=
  if inv.has_item .SteelAxe 1 then some .SteelAxe
  else if inv.has_item .IronAxe 1 then some .IronAxe
  else if inv.has_item .BronzeAxe 1 then some .BronzeAxe
  else none

end Inventory

/-! ## shared/src/skills.rs -/

/-- `SkillType`. -/
inductive SkillType where
  | Woodcutting | Fishing | Mining | Combat
deriving DecidableEq, Repr

/-- `SkillData`. -/
structure SkillData where
  level : Nat
  experience : Nat
deriving DecidableEq, Repr

/-- `Skills`. -/
structure Skills where
  skills : List (SkillType × SkillData)
deriving DecidableEq, Repr

namespace Skills

/-- `Skills::new`. -/
def new : Skills :=
  ⟨[(.Woodcutting, ⟨1, 0⟩), (.Fishing, ⟨1, 0⟩), (.Mining, ⟨1, 0⟩), (.Combat, ⟨1, 0⟩)]⟩

/-- The `while xp_needed <= xp` loop of `Skills::calculate_level`.
The per-level increment
`(level as f32 + 300.0 * 2_f32.powf(level as f32 / 7.0)).floor() as u32 / 4`
is floating-point (`f32::powf` is platform libm with unspecified
rounding), so the loop is modelled over an arbitrary increment function
`inc : Nat → Nat` standing for that expression evaluated at the
incremented level; the `u32` accumulation `xp_needed += ...` wraps, hence
the explicit `% 4294967296`. -/
def calcLoop (inc : Nat → Nat) (xp level xpNeeded : Nat) : Nat :=
  if xpNeeded ≤ xp then
    if 99 ≤ level + 1 then level + 1
    else calcLoop inc xp (level + 1) ((xpNeeded + inc (level + 1)) % 4294967296)
  else level
termination_by 99 - level
decreasing_by omega

/-- `Skills::calculate_level` (modulo the abstracted float increment):
run the loop from level 1 with 0 accumulated XP, then
`level.saturating_sub(1).max(1)`. -/
def calculate_level (inc : Nat → Nat) (xp : Nat) : Nat :=
  max (calcLoop inc xp 1 0 - 1) 1

/-- `Skills::get_level`. -/
def get_level (s : Skills) (skill : SkillType) : Nat :=
  ((alookup s.skills skill).map SkillData.level).getD 1

/-- `Skills::get_experience`. -/
def get_experience (s : Skills) (skill : SkillType) : Nat :=
  ((alookup s.skills skill).map SkillData.experience).getD 0

/-- `Skills::add_experience` (parametrised by the same abstract level
function `calc` standing for `calculate_level`'s float evaluation).
Returns the mutated skills and the Rust `bool` (levelled up). -/
def add_experience (calcLevel : Nat → Nat) (s : Skills) (skill : SkillType)
    (xp : Nat) : Skills × Bool :=
  match alookup s.skills skill with
  | none => (s, false)
  | some data =>
    let experience' := (data.experience + xp) % 4294967296
    let new_level := calcLevel experience'
    if data.level < new_level then
      (⟨aupdate s.skills skill ⟨new_level, experience'⟩⟩, true)
    else
      (⟨aupdate s.skills skill ⟨data.level, experience'⟩⟩, false)

end Skills

/-! ## shared/src/trees.rs -/

/-- `TreeType`. -/
inductive TreeType where
  | Normal | Oak | Willow
deriving DecidableEq, Repr

/-- `TreeDefinition` (the fields the modelled code consults; times are
`f64` seconds modelled as `Rat`). -/
structure TreeDefinition where
  tree_type : TreeType
  level_required : Nat
  chop_time : Rat
  logs_given : ItemType
  experience : Nat
  respawn_time : Rat
deriving DecidableEq, Repr

/-- `TreeDefinition::get`. -/
def TreeDefinition.get : TreeType → TreeDefinition
  | .Normal => ⟨.Normal, 1, 3, .Logs, 25, 5⟩
  | .Oak => ⟨.Oak, 15, 5, .OakLogs, 37, 8⟩
  | .Willow => ⟨.Willow, 30, 4, .WillowLogs, 67, 10⟩

/-- `Tree`. -/
structure Tree where
  tree_type : TreeType
  is_chopped : Bool
  respawn_timer : Rat
deriving DecidableEq, Repr

/-- `PlayerId` (shared/src/lib.rs): abstract `u64`. -/
structure PlayerId where
  raw : Nat
deriving DecidableEq, Repr

/-- `TICK_RATE = 0.6` seconds (shared/src/lib.rs), exactly 3/5. -/
def TICK_RATE : Rat := 3 / 5

/-! ## shared/src/netcode.rs — the message schema the server crate compiles
against (`use shared::netcode::...`). -/

namespace Netcode

/-- `netcode::ClientMessage`.  Note this schema carries no input sequence
number on `QueueAction` and has no `QueueActions` variant. -/
inductive ClientMessage where
  | Join (name : String)
  | QueueAction (action : GameAction)
  | CancelAction
  | RequestPath (start goal : TilePosition)
deriving DecidableEq, Repr

/-- `netcode::EntitySnapshot`. -/
structure EntitySnapshot where
  entity_id : Nat
  tile_position : TilePosition
  player_id : Option PlayerId
  tree : Option Tree
deriving DecidableEq, Repr

/-- `netcode::DeltaType`.  Note: neither variant carries a
`last_processed_input` field in this schema. -/
inductive DeltaType where
  | FullState (tile_pos : TilePosition) (player_id : Option PlayerId)
  | PositionOnly (tile_pos : TilePosition)
  | ActionStarted (action : GameAction)
  | Removed
deriving DecidableEq, Repr

/-- `netcode::EntityDelta`. -/
structure EntityDelta where
  entity_id : Nat
  delta_type : DeltaType
deriving DecidableEq, Repr

/-- `netcode::ServerMessage`. -/
inductive ServerMessage where
  | Welcome (player_id : PlayerId) (spawn_position : TilePosition)
  | DeltaUpdate (tick : Nat) (deltas : List EntityDelta)
  | EntitiesEntered (entities : List EntitySnapshot)
  | EntitiesLeft (entity_ids : List Nat)
  | ActionQueued (action : GameAction)
  | ActionCompleted (entity_id : Nat)
  | PathFound (path : List TilePosition)
  | PathNotFound
  | ObstacleData (obstacles : List TilePosition)
  | InventoryUpdate (inventory : Inventory)
  | ItemAdded (item_type : ItemType) (quantity : Nat)
  | ItemRemoved (item_type : ItemType) (quantity : Nat)
  | SkillUpdate (skill : SkillType) (level : Nat) (experience : Nat)
  | LevelUp (skill : SkillType) (new_level : Nat)
  | ExperienceGained (skill : SkillType) (amount : Nat)
  | TreeChopped (tree_entity_id : Nat)
  | TreeRespawned (tree_entity_id : Nat)
  | NotEnoughLevel (skill : SkillType) (required : Nat) (current : Nat)
  | NoAxeEquipped
deriving DecidableEq, Repr

end Netcode

/-! ## Server crate (server/src/lib.rs) -/

namespace Server

open Netcode

/-- A message emission of the server: `send_message` (reliable, to one
player), `broadcast_message` (reliable, to all), or the unreliable
per-client send in `send_delta_updates`. -/
inductive Event where
  | toPlayer (player_id : PlayerId) (msg : ServerMessage)
  | broadcast (msg : ServerMessage)
  | unreliableTo (player_id : PlayerId) (msg : ServerMessage)
deriving DecidableEq, Repr

/-- `ActionInProgress`. -/
structure ActionInProgress where
  action : GameAction
  started_at : Rat
  completion_time : Rat
  current_path_index : Nat
deriving DecidableEq, Repr

/-- `ActionQueue`. -/
structure ActionQueue where
  actions : List GameAction
  current_action : Option ActionInProgress
deriving DecidableEq, Repr

/-- `ServerEntity` (the bevy `Entity` handle is not modelled). -/
structure ServerEntity where
  tile_pos : TilePosition
  player_id : Option PlayerId
  action_queue : ActionQueue
  is_obstacle : Bool
  inventory : Option Inventory
  skills : Option Skills
  tree : Option Tree
deriving DecidableEq, Repr

/-- `ServerPlayer`. -/
structure ServerPlayer where
  entity_id : Nat
  name : String
deriving DecidableEq, Repr

/-- `EntityLastState`. -/
structure EntityLastState where
  tile_pos : TilePosition
  last_sent_tick : Nat
deriving DecidableEq, Repr

/-- The fields of `ServerState` the modelled systems touch. -/
structure ServerState where
  players : List (PlayerId × ServerPlayer)
  entities : List (Nat × ServerEntity)
  last_states : List (Nat × EntityLastState)
  pathfinder : Pathfinder
deriving DecidableEq, Repr

/-- `validate_woodcutting_action`.  Returns the Rust `bool` together with
the typed error messages it sends to the player on the way (at most one;
a missing or already-chopped tree fails silently). -/
def validate_woodcutting_action (player_entity tree_entity : ServerEntity)
    (player_id : PlayerId) : Bool × List Event :=
  match tree_entity.tree with
  | none => (false, [])
  | some t =>
    if t.is_chopped then (false, [])
    else
      let tree_def := TreeDefinition.get t.tree_type
      let levelCheck : Option Event :=
        match player_entity.skills with
        | some skills =>
          let wc_level := skills.get_level .Woodcutting
          if wc_level < tree_def.level_required then
            some (.toPlayer player_id
              (.NotEnoughLevel .Woodcutting tree_def.level_required wc_level))
          else none
        | none => none
      match levelCheck with
      | some e => (false, [e])
      | none =>
        match player_entity.inventory with
        | some inventory =>
          if (inventory.has_any_axe).isSome then (true, [])
          else (false, [.toPlayer player_id .NoAxeEquipped])
        | none => (true, [])

/-- The `ClientMessage::QueueAction` arm of `handle_client_message`. -/
def handle_queue_action (state : ServerState) (player_id : PlayerId)
    (action : GameAction) : ServerState × List Event :=
  match alookup state.players player_id with
  | none => (state, [])
  | some player =>
    let validation : Bool × List Event :=
      match action with
      | .ChopTree tree_entity_id =>
        match alookup state.entities player.entity_id,
            alookup state.entities tree_entity_id with
        | some p_entity, some t_entity =>
          validate_woodcutting_action p_entity t_entity player_id
        | _, _ => (false, [])
      | _ => (true, [])
    if validation.1 = false then (state, validation.2)
    else
      match alookup state.entities player.entity_id with
      | none => (state, validation.2)
      | some entity =>
        let entity' := { entity with action_queue :=
          { entity.action_queue with
              actions := entity.action_queue.actions ++ [action] } }
        ({ state with entities := aupdate state.entities player.entity_id entity' },
         validation.2 ++ [.toPlayer player_id (.ActionQueued action)])

/-- Modelled from the spec: `Pathfinder::find_path`, called by the
`RequestPath` arm, is not among the sources (only `find_path_a_star` is);
spec §4.1 specifies `find_path(start, goal)` as the A* search over the
same obstacle set, so it is modelled as `find_path_a_star`. -/
def find_path (pf : Pathfinder) (start goal : TilePosition) (fuel : Nat) :
    Option (List TilePosition) :=
  pf.find_path_a_star start goal fuel

/-- The `ClientMessage::RequestPath` arm of `handle_client_message`. -/
def handle_request_path (state : ServerState) (player_id : PlayerId)
    (start goal : TilePosition) (fuel : Nat) : ServerState × List Event :=
  match find_path state.pathfinder start goal fuel with
  | some path =>
    let evs := [Event.toPlayer player_id (.PathFound path)]
    match alookup state.players player_id with
    | none => (state, evs)
    | some player =>
      match alookup state.entities player.entity_id with
      | none => (state, evs)
      | some entity =>
        let entity' := { entity with action_queue :=
          { entity.action_queue with
              actions := entity.action_queue.actions ++ [GameAction.Move path] } }
        ({ state with entities := aupdate state.entities player.entity_id entity' },
         evs)
  | none => (state, [Event.toPlayer player_id .PathNotFound])

/-- `process_action_queue`.  Returns the updated queue and the (possibly
teleported) tile position. -/
def process_action_queue (queue : ActionQueue) (tile_pos : TilePosition)
    (current_time : Rat) : ActionQueue × TilePosition :=
  match queue.current_action with
  | some action_in_progress =>
    if action_in_progress.completion_time ≤ current_time then
      match action_in_progress.action with
      | .Move path =>
        let idx := action_in_progress.current_path_index + 1
        if hlt : idx < path.length then
          ({ queue with current_action := some { action_in_progress with
              current_path_index := idx,
              completion_time := current_time + TICK_RATE } },
           path.get ⟨idx, hlt⟩)
        else
          ({ queue with current_action := none }, tile_pos)
      | _ => (queue, tile_pos)
    else (queue, tile_pos)
  | none =>
    match queue.actions with
    | [] => (queue, tile_pos)
    | action :: rest =>
      let durPos : Rat × TilePosition :=
        match action with
        | .Move path => (TICK_RATE, path.head?.getD tile_pos)
        | .ChopTree _ => (3, tile_pos)
        | .Attack _ => (12 / 5, tile_pos)
        | .UseItem _ => (3 / 5, tile_pos)
        | .Interact _ => (6 / 5, tile_pos)
      ({ actions := rest,
         current_action := some
           { action := action,
             started_at := current_time,
             completion_time := current_time + durPos.1,
             current_path_index := 0 } },
       durPos.2)

/-- `handle_woodcutting_completion` (parametrised by the abstract level
function `calc`, see `Skills.calculate_level`).  Returns the updated
state and the emitted messages, in emission order. -/
def handle_woodcutting_completion (calcLevel : Nat → Nat)
    (player_entity_id tree_entity_id : Nat) (state : ServerState) :
    ServerState × List Event :=
  match alookup state.entities tree_entity_id with
  | none => (state, [])
  | some tree_entity =>
    match tree_entity.tree with
    | none => (state, [])
    | some tree =>
      let tree_def := TreeDefinition.get tree.tree_type
      let tree' : Tree := { tree with is_chopped := true, respawn_timer := 0 }
      let tree_entity' : ServerEntity := { tree_entity with tree := some tree' }
      let state :=
        { state with
            entities := aupdate state.entities tree_entity_id tree_entity' }
      match alookup state.entities player_entity_id with
      | none => (state, [])
      | some player_entity =>
        match player_entity.player_id with
        | none => (state, [])
        | some player_id =>
          let invStep : Option Inventory × List Event :=
            match player_entity.inventory with
            | some inventory =>
              match inventory.add_item tree_def.logs_given 1 with
              | (true, inventory') =>
                (some inventory',
                 [.toPlayer player_id (.ItemAdded tree_def.logs_given 1),
                  .toPlayer player_id (.InventoryUpdate inventory')])
              | (false, _) => (player_entity.inventory, [])
            | none => (none, [])
          let skillStep : Option Skills × List Event :=
            match player_entity.skills with
            | some skills =>
              let res := skills.add_experience calcLevel .Woodcutting tree_def.experience
              let skills' := res.1
              let data := (alookup skills'.skills .Woodcutting).getD ⟨1, 0⟩
              (some skills',
               [.toPlayer player_id (.ExperienceGained .Woodcutting tree_def.experience),
                .toPlayer player_id (.SkillUpdate .Woodcutting data.level data.experience)] ++
               (if res.2 then [.toPlayer player_id (.LevelUp .Woodcutting data.level)] else []))
            | none => (none, [])
          let player_entity' := { player_entity with
            inventory := invStep.1,
            skills := skillStep.1,
            action_queue := { player_entity.action_queue with current_action := none } }
          let state' :=
            { state with
                entities := aupdate state.entities player_entity_id player_entity' }
          (state',
           invStep.2 ++ skillStep.2 ++
            [.toPlayer player_id (.ActionCompleted player_entity_id),
             .broadcast (.TreeChopped tree_entity_id)])

/-- `send_delta_updates`, first phase: the per-entity fold that performs
change detection, builds deltas, groups them per receiving client and
updates `last_states`. -/
def deltaStep (client_views : List (PlayerId × List Nat)) (tick : Nat)
    (acc : List (Nat × EntityLastState) × List (PlayerId × List EntityDelta))
    (e : Nat × ServerEntity) :
    List (Nat × EntityLastState) × List (PlayerId × List EntityDelta) :=
  let entity_id := e.1
  let entity := e.2
  -- `last_states.entry(id).or_insert(..)`
  let inserted : List (Nat × EntityLastState) :=
    match alookup acc.1 entity_id with
    | some _ => acc.1
    | none => ainsert acc.1 entity_id ⟨entity.tile_pos, 0⟩
  let last_state : EntityLastState :=
    (alookup inserted entity_id).getD ⟨entity.tile_pos, 0⟩
  let changed := last_state.tile_pos ≠ entity.tile_pos ∨ last_state.last_sent_tick = 0
  if changed then
    let delta : EntityDelta :=
      { entity_id := entity_id,
        delta_type :=
          if last_state.last_sent_tick = 0 then
            .FullState entity.tile_pos entity.player_id
          else
            .PositionOnly entity.tile_pos }
    let deltas' := client_views.foldl
      (fun cd view =>
        if entity_id ∈ view.2 then
          match alookup cd view.1 with
          | some ds => aupdate cd view.1 (ds ++ [delta])
          | none => ainsert cd view.1 [delta]
        else cd)
      acc.2
    (aupdate inserted entity_id ⟨entity.tile_pos, tick⟩, deltas')
  else (inserted, acc.2)

/-- `send_delta_updates`: fold the change detection over all entities,
then send one `DeltaUpdate` per client with a non-empty bundle on the
unreliable channel.  Returns the new `last_states` and the sends. -/
def send_delta_updates (entities : List (Nat × ServerEntity))
    (last_states : List (Nat × EntityLastState))
    (client_views : List (PlayerId × List Nat)) (tick : Nat) :
    List (Nat × EntityLastState) × List Event :=
  let res := entities.foldl (deltaStep client_views tick) (last_states, [])
  (res.1,
   res.2.reverse.filterMap
     (fun pd =>
       if pd.2.isEmpty then none
       else some (.unreliableTo pd.1 (.DeltaUpdate tick pd.2))))

end Server

/-! ## shared/src/messages.rs — the message schema the client crate compiles
against (`use shared::messages::...`).  The module is declared in
shared/src/lib.rs (`pub mod messages;`) but its file is not among the
sources; the delta variants below are modelled from the spec (§6:
`FullState{tile_pos, player_id, last_processed_input}`,
`PositionOnly{tile_pos, last_processed_input}`), whose fields coincide
with the patterns the client source matches against. -/

namespace Messages

/-- Modelled from the spec: `messages::DeltaType` (file missing from the
sources; fields per spec §6 and the client's match patterns). -/
inductive DeltaType where
  | FullState (tile_pos : TilePosition) (player_id : Option PlayerId)
      (last_processed_input : Option Nat)
  | PositionOnly (tile_pos : TilePosition) (last_processed_input : Option Nat)
  | ActionStarted (action : GameAction)
  | Removed
deriving DecidableEq, Repr

/-- `messages::EntityDelta`. -/
structure EntityDelta where
  entity_id : Nat
  delta_type : DeltaType
deriving DecidableEq, Repr

end Messages

/-! ## Client crate (client/src/lib.rs and client/src/systems.rs) -/

namespace Client

/-- `PositionSnapshot` (`f64` timestamp modelled as `Rat`). -/
structure PositionSnapshot where
  timestamp : Rat
  position : TilePosition
deriving DecidableEq, Repr

/-- `ClientEntity` (the bevy `Entity` handle is not modelled). -/
structure ClientEntity where
  tile_position : TilePosition
  player_id : Option PlayerId
  tree : Option Tree
  position_buffer : List PositionSnapshot
  server_position : TilePosition
  interpolated_position : Option TilePosition
deriving DecidableEq, Repr

/-- `PendingInput`. -/
structure PendingInput where
  input_sequence_number : Nat
  action : GameAction
deriving DecidableEq, Repr

/-- The fields of `ClientState` the modelled systems touch. -/
structure ClientState where
  my_player_id : Option PlayerId
  my_entity_id : Option Nat
  visible_entities : List (Nat × ClientEntity)
  pending_move : Option TilePosition
  confirmed_path : Option (List TilePosition)
  pending_inputs : List PendingInput
  server_reconciliation : Bool
  entity_interpolation : Bool
  interpolation_delay : Rat
deriving DecidableEq, Repr

/-- `apply_action_to_position` (client/src/systems.rs). -/
def apply_action_to_position (action : GameAction) (position : TilePosition) :
    TilePosition :=
  match action with
  | .Move path => path.head?.getD position
  | _ => position

/-- `reconcile_client_state`: retain the pending inputs the server has not
yet processed, then re-apply each of them to the local entity's
`tile_position`. -/
def reconcile_client_state (state : ClientState) (entity_id : Nat)
    (last_processed_input : Nat) : ClientState :=
  let pending' := state.pending_inputs.filter
    (fun input => last_processed_input < input.input_sequence_number)
  let state := { state with pending_inputs := pending' }
  match alookup state.visible_entities entity_id with
  | none => state
  | some entity =>
    let pos' := pending'.foldl
      (fun pos input => apply_action_to_position input.action pos)
      entity.tile_position
    { state with
        visible_entities :=
          aupdate state.visible_entities entity_id
            { entity with tile_position := pos' } }

/-- Write back an in-place mutation of one visible entity. -/
def updEnt (state : ClientState) (entity_id : Nat) (entity : ClientEntity) :
    ClientState :=
  { state with
      visible_entities := aupdate state.visible_entities entity_id entity }

/-- The per-delta body of `handle_server_message_unreliable`
(`current_time` is `time.elapsed_seconds_f64()`). -/
def applyDelta (state : ClientState) (current_time : Rat)
    (delta : Messages.EntityDelta) : ClientState :=
  match delta.delta_type with
  | .FullState tile_pos player_id last_processed_input =>
    let is_my_player := player_id = state.my_player_id
    let state :=
      match alookup state.visible_entities delta.entity_id with
      | none => state
      | some entity =>
        let entity := { entity with server_position := tile_pos,
                                    player_id := player_id }
        if is_my_player then
          let s1 := updEnt state delta.entity_id
            { entity with tile_position := tile_pos }
          { s1 with my_entity_id := some delta.entity_id }
        else if state.entity_interpolation then
          updEnt state delta.entity_id
            { entity with
                position_buffer :=
                  entity.position_buffer ++ [⟨current_time, tile_pos⟩] }
        else
          updEnt state delta.entity_id { entity with tile_position := tile_pos }
    if is_my_player then
      let state :=
        if state.server_reconciliation then
          match last_processed_input with
          | some last_input => reconcile_client_state state delta.entity_id last_input
          | none => state
        else
          { state with pending_inputs := [] }
      { state with pending_move := none }
    else state
  | .PositionOnly tile_pos last_processed_input =>
    let is_my_entity := some delta.entity_id = state.my_entity_id
    let state :=
      match alookup state.visible_entities delta.entity_id with
      | none => state
      | some entity =>
        let entity := { entity with server_position := tile_pos }
        if is_my_entity then
          updEnt state delta.entity_id { entity with tile_position := tile_pos }
        else if state.entity_interpolation then
          updEnt state delta.entity_id
            { entity with
                position_buffer :=
                  entity.position_buffer ++ [⟨current_time, tile_pos⟩] }
        else
          updEnt state delta.entity_id { entity with tile_position := tile_pos }
    if is_my_entity then
      let state :=
        if state.server_reconciliation then
          match last_processed_input with
          | some last_input => reconcile_client_state state delta.entity_id last_input
          | none => state
        else
          { state with pending_inputs := [] }
      let state := { state with pending_move := none }
      match state.confirmed_path with
      | some path =>
        if path.getLast? = some tile_pos then
          { state with confirmed_path := none }
        else state
      | none => state
    else state
  | .ActionStarted _ => state
  | .Removed =>
    { state with visible_entities :=
        state.visible_entities.filter (fun e => e.1 ≠ delta.entity_id) }

/-- `handle_server_message_unreliable` on a `DeltaUpdate`: apply the
deltas in order. -/
def handle_delta_update (state : ClientState) (current_time : Rat)
    (deltas : List Messages.EntityDelta) : ClientState :=
  deltas.foldl (fun s d => applyDelta s current_time d) state

/-- The `for i in 0..buffer.len()-1` scan of `interpolate_entities`:
first adjacent pair whose timestamps surround the render timestamp. -/
def findSurroundingPair : List PositionSnapshot → Rat →
    Option (PositionSnapshot × PositionSnapshot)
  | s0 :: s1 :: rest, rt =>
    if s0.timestamp ≤ rt ∧ rt ≤ s1.timestamp then some (s0, s1)
    else findSurroundingPair (s1 :: rest) rt
  | _, _ => none

/-- The per-entity body of `interpolate_entities`: evict stale snapshots
and compute `interpolated_position`.  The `f64` constants `1.0`, `0.0001`
and `0.5` are modelled as exact rationals. -/
def interpolateEntity (interpolation_delay current_time : Rat)
    (entity : ClientEntity) : ClientEntity :=
  let render_timestamp := current_time - interpolation_delay
  let buffer := entity.position_buffer.filter
    (fun snapshot => render_timestamp - 1 ≤ snapshot.timestamp)
  if buffer.length < 2 then
    { entity with position_buffer := buffer,
                  interpolated_position := some entity.server_position }
  else
    let pair := findSurroundingPair buffer render_timestamp
    match pair with
    | some (snap0, snap1) =>
      let t0 := snap0.timestamp
      let t1 := snap1.timestamp
      let interpolation_factor : Rat :=
        if 1 / 10000 < |t1 - t0| then
          min (max ((render_timestamp - t0) / (t1 - t0)) 0) 1
        else 0
      { entity with position_buffer := buffer,
                    interpolated_position :=
                      if interpolation_factor < 1 / 2 then some snap0.position
                      else some snap1.position }
    | none =>
      { entity with position_buffer := buffer,
                    interpolated_position := some entity.server_position }

/-- `interpolate_entities`: skip when interpolation is disabled, and skip
the local player and trees. -/
def interpolate_entities (state : ClientState) (current_time : Rat) :
    ClientState :=
  if ¬ state.entity_interpolation then state
  else
    let entities' := state.visible_entities.map
      (fun e => (e.1,
        if some e.1 = state.my_entity_id then e.2
        else if e.2.tree.isSome then e.2
        else interpolateEntity state.interpolation_delay current_time e.2))
    { state with visible_entities := entities' }

/-! Spec-side formulations (written from the spec's words, for comparison
with the code model). -/

/-- Spec §4.8: the snapshots that survive eviction — those not older than
`render_time − 1 s`. -/
def specRetained (delay now : Rat) (entity : ClientEntity) :
    List PositionSnapshot :=
  entity.position_buffer.filter
    (fun snapshot => decide (¬ snapshot.timestamp < now - delay - 1))

/-- Spec §4.8 / C8, displayed position, with the one amendment the code
forces: the pair `(s0, s1)` is the first adjacent surviving pair with
`s0.t ≤ render_time ≤ s1.t`; `s0.position` is displayed when the
interpolation factor `(render_time − s0.t)/(s1.t − s0.t)` is below 1/2
**or when `s1.t − s0.t ≤ 1/10000`** (the code's degenerate-interval
guard, under which the factor is treated as 0), and `s1.position`
otherwise; when no surrounding pair exists among the surviving snapshots
(in particular when fewer than two survive), `server_position` is
displayed. -/
def specDisplayed (delay now : Rat) (entity : ClientEntity) : TilePosition :=
  let render_time := now - delay
  let buf := specRetained delay now entity
  match (buf.zip buf.tail).find?
      (fun p => decide (p.1.timestamp ≤ render_time ∧ render_time ≤ p.2.timestamp)) with
  | some (s0, s1) =>
    if s1.timestamp - s0.timestamp ≤ 1 / 10000 then s0.position
    else if (render_time - s0.timestamp) / (s1.timestamp - s0.timestamp) < 1 / 2 then
      s0.position
    else s1.position
  | none => entity.server_position

end Client

/-- The tick counts the spec (§3, C7) assigns to the action variants:
Move = 1 tick per path step, ChopTree = 5 ticks (3.0 s), Attack = 4,
UseItem = 1, Interact = 2. -/
def specTickCount : GameAction → Nat
  | .Move _ => 1
  | .ChopTree _ => 5
  | .Attack _ => 4
  | .UseItem _ => 1
  | .Interact _ => 2

/-! # Theorems -/

theorem alookup_ainsert {α β : Type} [DecidableEq α] (l : List (α × β)) (k : α)
    (v : β) (a : α) :
    alookup (ainsert l k v) a = if k = a then some v else alookup l a := rfl

theorem alookup_aupdate {α β : Type} [DecidableEq α] (l : List (α × β)) (k : α)
    (v : β) (a : α) :
    alookup (aupdate l k v) a =
      if k = a then (alookup l k).map (fun _ => v) else alookup l a := by
  induction l with
  | nil => simp [aupdate, alookup]
  | cons hd tl ih =>
    obtain ⟨k', v'⟩ := hd
    by_cases hk : k' = k
    · subst hk
      by_cases ha : k' = a
      · subst ha; simp [aupdate, alookup]
      · simp [aupdate, alookup, ha]
    · by_cases ha : k' = a
      · subst ha
        have hne : ¬ k = k' := fun h => hk h.symm
        simp [aupdate, alookup, hk, hne]
      · simp [aupdate, alookup, hk, ha, ih]

theorem TilePosition.ne_of_mem_neighbors {p q : TilePosition}
    (h : q ∈ p.neighbors) : q ≠ p := by
  intro hq
  subst hq
  obtain ⟨qx, qy⟩ := q
  simp only [TilePosition.neighbors, List.mem_cons, List.not_mem_nil, or_false,
    TilePosition.mk.injEq] at h
  omega

theorem TilePosition.ne_of_mem_neighbors_diagonal {p q : TilePosition}
    (h : q ∈ p.neighbors_diagonal) : q ≠ p := by
  intro hq
  subst hq
  obtain ⟨qx, qy⟩ := q
  simp only [TilePosition.neighbors_diagonal, List.mem_cons, List.not_mem_nil,
    or_false, TilePosition.mk.injEq] at h
  omega

/-! ## Pathfinder soundness (C1) -/

namespace Pathfinder

theorem ne_of_mem_neighborList {diag : Bool} {p q : TilePosition}
    (h : q ∈ neighborList diag p) : q ≠ p := by
  unfold neighborList at h
  cases diag with
  | false => exact TilePosition.ne_of_mem_neighbors h
  | true => exact TilePosition.ne_of_mem_neighbors_diagonal h

theorem popBest_mem {l : List PathNode} {n : PathNode} {rest : List PathNode}
    (h : popBest l = some (n, rest)) :
    n ∈ l ∧ ∀ m ∈ rest, m ∈ l := by
  induction l generalizing n rest with
  | nil => simp [popBest] at h
  | cons hd tl ih =>
    cases hp : popBest tl with
    | none =>
      simp only [popBest, hp] at h
      simp only [Option.some.injEq, Prod.mk.injEq] at h
      obtain ⟨h1, h2⟩ := h
      subst h1; subst h2
      exact ⟨List.mem_cons_self _ _, by simp⟩
    | some pr =>
      obtain ⟨m, rest'⟩ := pr
      simp only [popBest, hp] at h
      obtain ⟨hm, hr⟩ := ih hp
      by_cases hc : m.f_cost < hd.f_cost ∨ m.f_cost = hd.f_cost ∧ m.h_cost < hd.h_cost
      · rw [if_pos hc] at h
        simp only [Option.some.injEq, Prod.mk.injEq] at h
        obtain ⟨h1, h2⟩ := h
        subst h1; subst h2
        refine ⟨List.mem_cons_of_mem _ hm, ?_⟩
        intro x hx
        rcases List.mem_cons.mp hx with hx | hx
        · exact hx ▸ List.mem_cons_self _ _
        · exact List.mem_cons_of_mem _ (hr x hx)
      · rw [if_neg hc] at h
        simp only [Option.some.injEq, Prod.mk.injEq] at h
        obtain ⟨h1, h2⟩ := h
        subst h1; subst h2
        exact ⟨List.mem_cons_self _ _, fun x hx => List.mem_cons_of_mem _ hx⟩

/-- `stepNeighbor` preserves the search invariant and keeps the current
node scored. -/
theorem stepNeighbor_inv {pf : Pathfinder} {start goal cur : TilePosition}
    {st : SearchState} {nb : TilePosition}
    (hInv : Inv pf start st)
    (hcur : (alookup st.g_score cur).isSome)
    (hnb : nb ∈ neighborList pf.allow_diagonal cur) :
    Inv pf start (stepNeighbor pf goal cur st nb) ∧
      (alookup (stepNeighbor pf goal cur st nb).g_score cur).isSome := by
  unfold stepNeighbor
  by_cases hw : pf.is_walkable nb
  · rw [if_neg (by simp [hw])]
    obtain ⟨gc, hgc⟩ := Option.isSome_iff_exists.mp hcur
    have hmc10 : 10 ≤ moveCost cur nb := by
      unfold moveCost; split <;> omega
    have hmc14 : moveCost cur nb ≤ 14 := by
      unfold moveCost; split <;> omega
    have htenv : tentativeScore st cur nb = gc + moveCost cur nb := by
      unfold tentativeScore; rw [hgc]; rfl
    by_cases hlt : tentativeScore st cur nb <
        (alookup st.g_score nb).getD 2147483647
    · rw [if_pos hlt]
      have hnbcur : nb ≠ cur := ne_of_mem_neighborList hnb
      -- the guard can never fire for `start`, whose score stays 0
      have hnbstart : nb ≠ start := by
        intro heq
        subst heq
        rw [hInv.start_g] at hlt
        simp only [Option.getD_some] at hlt
        omega
      have hgb := hInv.g_bound cur gc hgc
      constructor
      · constructor
        · -- open_defined
          intro n hn
          simp only [alookup_ainsert]
          rcases List.mem_cons.mp hn with hn | hn
          · subst hn; simp
          · split
            · simp
            · exact hInv.open_defined n hn
        · -- start_g
          simp only [alookup_ainsert, if_neg hnbstart, hInv.start_g]
        · -- start_no_pred
          simp only [alookup_ainsert, if_neg hnbstart, hInv.start_no_pred]
        · -- pred_total
          intro n g hg
          simp only [alookup_ainsert] at hg ⊢
          by_cases hna : nb = n
          · right; rw [if_pos hna]; simp
          · rw [if_neg hna] at hg ⊢
            exact hInv.pred_total n g hg
        · -- pred_ok
          intro n c hc
          simp only [alookup_ainsert] at hc ⊢
          by_cases hna : nb = n
          · rw [if_pos hna] at hc
            cases hc
            refine ⟨?_, hna ▸ hnb, hna ▸ hw⟩
            rw [if_neg hnbcur]
            exact hcur
          · rw [if_neg hna] at hc
            obtain ⟨hdef, hmem, hwalk⟩ := hInv.pred_ok n c hc
            refine ⟨?_, hmem, hwalk⟩
            split
            · simp
            · exact hdef
        · -- pred_lt
          intro n c gn gcc hcf hgn hgcc
          simp only [alookup_ainsert] at hcf hgn hgcc
          by_cases hna : nb = n
          · rw [if_pos hna] at hcf hgn
            cases hcf
            cases hgn
            rw [if_neg hnbcur] at hgcc
            rw [hgcc] at hgc
            cases hgc
            omega
          · rw [if_neg hna] at hcf hgn
            by_cases hnc : nb = c
            · rw [if_pos hnc] at hgcc
              cases hgcc
              obtain ⟨hdef, _, _⟩ := hInv.pred_ok n c hcf
              obtain ⟨gcold, hgcold⟩ := Option.isSome_iff_exists.mp hdef
              have := hInv.pred_lt n c gn gcold hcf hgn hgcold
              rw [← hnc] at hgcold
              rw [hgcold] at hlt
              simp only [Option.getD_some] at hlt
              omega
            · rw [if_neg hnc] at hgcc
              exact hInv.pred_lt n c gn gcc hcf hgn hgcc
        · -- g_bound
          intro n g hg
          simp only [alookup_ainsert] at hg
          simp only [ainsert, List.length_cons]
          by_cases hna : nb = n
          · rw [if_pos hna] at hg
            cases hg
            omega
          · rw [if_neg hna] at hg
            have := hInv.g_bound n g hg
            omega
      · simp only [alookup_ainsert, if_neg hnbcur]
        exact hcur
    · rw [if_neg hlt]
      exact ⟨hInv, hcur⟩
  · rw [if_pos (by simp [hw])]
    exact ⟨hInv, hcur⟩

/-- The neighbour fold of one loop iteration preserves the invariant. -/
theorem foldl_stepNeighbor_inv {pf : Pathfinder} {start goal cur : TilePosition}
    (nbs : List TilePosition) {st : SearchState}
    (hInv : Inv pf start st)
    (hcur : (alookup st.g_score cur).isSome)
    (hnbs : ∀ nb ∈ nbs, nb ∈ neighborList pf.allow_diagonal cur) :
    Inv pf start (nbs.foldl (stepNeighbor pf goal cur) st) := by
  induction nbs generalizing st with
  | nil => exact hInv
  | cons hd tl ih =>
    have hhd := hnbs hd (List.mem_cons_self _ _)
    obtain ⟨hInv', hcur'⟩ :=
      @stepNeighbor_inv pf start goal cur st hd hInv hcur hhd
    exact ih hInv' hcur' (fun nb hnb => hnbs nb (List.mem_cons_of_mem _ hnb))

theorem reconstructGo_ne_nil (cf : List (TilePosition × TilePosition))
    (fuel : Nat) (cur : TilePosition) : reconstructGo cf fuel cur ≠ [] := by
  cases fuel with
  | zero => simp [reconstructGo]
  | succ n =>
    rw [reconstructGo]
    cases alookup cf cur with
    | none => simp
    | some prev => simp

/-- Along `came_from` links the path reconstruction, given enough fuel,
produces a chain of legal walkable steps from `start` to the queried
node. -/
theorem reconstructGo_spec {pf : Pathfinder} {start : TilePosition}
    {st : SearchState} (hInv : Inv pf start st) :
    ∀ fuel cur g, alookup st.g_score cur = some g → g < 10 * fuel →
      (reconstructGo st.came_from fuel cur).head? = some start ∧
      (reconstructGo st.came_from fuel cur).getLast? = some cur ∧
      List.Chain' (fun a b => b ∈ neighborList pf.allow_diagonal a)
        (reconstructGo st.came_from fuel cur) ∧
      (∀ t ∈ (reconstructGo st.came_from fuel cur).tail,
        pf.is_walkable t = true) := by
  intro fuel
  induction fuel with
  | zero => intro cur g _ hg; omega
  | succ n ih =>
    intro cur g hgcur hg
    cases hcf : alookup st.came_from cur with
    | none =>
      have hrw : reconstructGo st.came_from (n + 1) cur = [cur] := by
        simp only [reconstructGo, hcf]
      have hstart : cur = start := by
        rcases hInv.pred_total cur g hgcur with h | h
        · exact h
        · rw [hcf] at h; simp at h
      rw [hrw, hstart]
      simp
    | some prev =>
      have hrw : reconstructGo st.came_from (n + 1) cur =
          reconstructGo st.came_from n prev ++ [cur] := by
        simp only [reconstructGo, hcf]
      obtain ⟨hdef, hmem, hwalk⟩ := hInv.pred_ok cur prev hcf
      obtain ⟨gp, hgp⟩ := Option.isSome_iff_exists.mp hdef
      have hlt := hInv.pred_lt cur prev g gp hcf hgcur hgp
      have hgpn : gp < 10 * n := by omega
      obtain ⟨ih1, ih2, ih3, ih4⟩ := ih prev gp hgp hgpn
      have hne := reconstructGo_ne_nil st.came_from n prev
      rw [hrw]
      refine ⟨?_, ?_, ?_, ?_⟩
      · cases hl : reconstructGo st.came_from n prev with
        | nil => exact absurd hl hne
        | cons a as =>
          rw [hl] at ih1
          simpa using ih1
      · simp [List.getLast?_concat]
      · rw [List.chain'_append]
        refine ⟨ih3, List.chain'_singleton _, ?_⟩
        intro x hx y hy
        simp only [List.head?_cons, Option.mem_def, Option.some.injEq] at hy
        subst hy
        rw [ih2] at hx
        simp only [Option.mem_def, Option.some.injEq] at hx
        subst hx
        exact hmem
      · intro t ht
        cases hl : reconstructGo st.came_from n prev with
        | nil => exact absurd hl hne
        | cons a as =>
          rw [hl] at ht ih4
          simp only [List.cons_append, List.tail_cons] at ht
          rcases List.mem_append.mp ht with ht | ht
          · exact ih4 t ht
          · simp only [List.mem_singleton] at ht
            subst ht
            exact hwalk

/-- Soundness of the search loop: any returned path runs from `start` to
`goal` along legal neighbour steps through walkable tiles. -/
theorem searchLoop_sound {pf : Pathfinder} {start goal : TilePosition} :
    ∀ fuel st p, Inv pf start st →
      searchLoop pf goal fuel st = some p →
      p.head? = some start ∧ p.getLast? = some goal ∧
      List.Chain' (fun a b => b ∈ neighborList pf.allow_diagonal a) p ∧
      (∀ t ∈ p.tail, pf.is_walkable t = true) := by
  intro fuel
  induction fuel with
  | zero => intro st p _ h; simp [searchLoop] at h
  | succ n ih =>
    intro st p hInv hloop
    cases hpop : popBest st.open_set with
    | none =>
      simp only [searchLoop, hpop] at hloop
      exact Option.noConfusion hloop
    | some pr =>
      obtain ⟨cur, rest⟩ := pr
      simp only [searchLoop, hpop] at hloop
      obtain ⟨hcurmem, hrest⟩ := popBest_mem hpop
      by_cases hgoal : cur.position = goal
      · rw [if_pos hgoal] at hloop
        simp only [Option.some.injEq] at hloop
        subst hloop
        obtain ⟨g, hg⟩ := Option.isSome_iff_exists.mp
          (hInv.open_defined cur hcurmem)
        have hbound := hInv.g_bound _ g hg
        have hfuel : g < 10 * (2 * st.came_from.length + 2) := by omega
        obtain ⟨h1, h2, h3, h4⟩ := reconstructGo_spec hInv _ _ g hg hfuel
        rw [hgoal] at h1 h2 h3 h4
        unfold reconstruct_path
        rw [hgoal]
        exact ⟨h1, h2, h3, h4⟩
      · rw [if_neg hgoal] at hloop
        have hInvRest : Inv pf start { st with open_set := rest } := by
          obtain ⟨o, sg, sp, pt, po, pl, gb⟩ := hInv
          exact ⟨fun n hn => o n (hrest n hn), sg, sp, pt, po, pl, gb⟩
        have hcur : (alookup ({ st with open_set := rest } : SearchState).g_score
            cur.position).isSome := hInv.open_defined cur hcurmem
        have hInv' :=
          @foldl_stepNeighbor_inv pf start goal cur.position
            (neighborList pf.allow_diagonal cur.position)
            { st with open_set := rest } hInvRest hcur (fun nb hnb => hnb)
        exact ih _ p hInv' hloop

/-- The initial search state satisfies the invariant. -/
theorem init_inv (pf : Pathfinder) (start goal : TilePosition) :
    Inv pf start
      { open_set := [⟨start, 0, heuristic start goal, heuristic start goal⟩],
        came_from := [],
        g_score := [(start, 0)] } := by
  constructor
  · intro n hn
    simp only [List.mem_singleton] at hn
    subst hn
    simp [alookup]
  · simp [alookup]
  · simp [alookup]
  · intro n g hg
    simp only [alookup] at hg
    split at hg
    · rename_i h
      exact Or.inl h.symm
    · simp [alookup] at hg
  · intro n c hc
    simp [alookup] at hc
  · intro n c gn gc hc
    simp [alookup] at hc
  · intro n g hg
    simp only [alookup] at hg
    split at hg
    · simp only [Option.some.injEq] at hg
      omega
    · simp [alookup] at hg

end Pathfinder

/-- C1, counterexample to the claim as stated: the clause "if `goal` is in
the obstacle set, `find_path` returns unreachable (`None`)" fails when
`start = goal`: with the single obstacle `(0,0)` and
`start = goal = (0,0)`, `find_path_a_star` returns `some [(0,0)]`, because
the `start == goal` early return precedes the obstacle check. -/
theorem c1_goal_obstacle_counterexample :
    (⟨0, 0⟩ : TilePosition) ∈ (Pathfinder.mk [⟨0, 0⟩] false).obstacles ∧
    (Pathfinder.mk [⟨0, 0⟩] false).find_path_a_star ⟨0, 0⟩ ⟨0, 0⟩ 1 ≠ none := by
  constructor
  · decide
  · decide

/-- C1 (amended: the unreachable-on-obstacle-goal clause holds only for
`start ≠ goal`): for every obstacle set, start, goal and fuel,
(i) if `start = goal` the function returns `[goal]`;
(ii) if `goal` is an obstacle and `start ≠ goal` it returns `none`;
(iii) whenever it returns a path `p` with `start ≠ goal`, `p` starts at
`start`, ends at `goal`, every adjacent pair is one legal neighbour step
(cardinal, or diagonal only when `allow_diagonal` is set), and no tile of
`p` after the first — in particular no interior tile — is an obstacle. -/
theorem c1_find_path_a_star_spec (pf : Pathfinder) (start goal : TilePosition)
    (fuel : Nat) :
    (start = goal → pf.find_path_a_star start goal fuel = some [goal]) ∧
    (goal ∈ pf.obstacles → start ≠ goal →
      pf.find_path_a_star start goal fuel = none) ∧
    (∀ p, pf.find_path_a_star start goal fuel = some p → start ≠ goal →
      p.head? = some start ∧ p.getLast? = some goal ∧
      List.Chain' (fun a b => b ∈ Pathfinder.neighborList pf.allow_diagonal a) p ∧
      ∀ t ∈ p.tail, t ∉ pf.obstacles) := by
  refine ⟨?_, ?_, ?_⟩
  · intro h
    simp [Pathfinder.find_path_a_star, h]
  · intro hobs hne
    unfold Pathfinder.find_path_a_star
    rw [if_neg hne, if_pos ?_]
    simp [Pathfinder.is_walkable, hobs]
  · intro p hp hne
    unfold Pathfinder.find_path_a_star at hp
    rw [if_neg hne] at hp
    by_cases hw : pf.is_walkable goal
    · rw [if_neg (by simp [hw])] at hp
      obtain ⟨h1, h2, h3, h4⟩ :=
        Pathfinder.searchLoop_sound fuel _ p (Pathfinder.init_inv pf start goal) hp
      refine ⟨h1, h2, h3, ?_⟩
      intro t ht
      have := h4 t ht
      simpa [Pathfinder.is_walkable] using this
    · rw [if_pos (by simp [hw])] at hp
      exact Option.noConfusion hp

/-- C1 witness: a concrete successful run on the obstacle set `{(1,0)}`
from `(0,0)` to `(0,1)` satisfying every consequence of the amended
claim. -/
theorem c1_find_path_a_star_spec_witness :
    (Pathfinder.mk [⟨1, 0⟩] false).find_path_a_star ⟨0, 0⟩ ⟨0, 1⟩ 10 =
      some [⟨0, 0⟩, ⟨0, 1⟩] ∧
    ([⟨0, 0⟩, ⟨0, 1⟩] : List TilePosition).head? = some ⟨0, 0⟩ ∧
    ([⟨0, 0⟩, ⟨0, 1⟩] : List TilePosition).getLast? = some ⟨0, 1⟩ ∧
    List.Chain'
      (fun a b => b ∈ Pathfinder.neighborList false a)
      [(⟨0, 0⟩ : TilePosition), ⟨0, 1⟩] ∧
    (∀ t ∈ ([⟨0, 0⟩, ⟨0, 1⟩] : List TilePosition).tail,
      t ∉ (Pathfinder.mk [⟨1, 0⟩] false).obstacles) := by
  have hrun : (Pathfinder.mk [⟨1, 0⟩] false).find_path_a_star ⟨0, 0⟩ ⟨0, 1⟩ 10 =
      some [⟨0, 0⟩, ⟨0, 1⟩] := by decide
  have h := (c1_find_path_a_star_spec (Pathfinder.mk [⟨1, 0⟩] false)
    ⟨0, 0⟩ ⟨0, 1⟩ 10).2.2 [⟨0, 0⟩, ⟨0, 1⟩] hrun (by decide)
  exact ⟨hrun, h.1, h.2.1, h.2.2.1, h.2.2.2⟩

/-! ## Skills level computation (C4) -/

/-- The level loop always runs into the `level >= 99` break (and so
returns 99) when the loop condition `xp_needed <= xp` can never fail —
which is forced at `xp = u32::MAX`, since the wrapped `u32` accumulator
is always `≤ u32::MAX`. -/
theorem calcLoop_at_max (inc : Nat → Nat) :
    ∀ k level xpNeeded, level + k = 99 → 0 < k → xpNeeded < 4294967296 →
      Skills.calcLoop inc 4294967295 level xpNeeded = 99 := by
  intro k
  induction k with
  | zero => intro level xpNeeded h h0 _; omega
  | succ n ih =>
    intro level xpNeeded hlk _ hlt
    have hle : xpNeeded ≤ 4294967295 := by omega
    rw [Skills.calcLoop, if_pos hle]
    by_cases h99 : 99 ≤ level + 1
    · rw [if_pos h99]
      omega
    · rw [if_neg h99]
      exact ih (level + 1) _ (by omega) (by omega)
        (Nat.mod_lt _ (by norm_num))

/-- C4 (code bug): at the cumulative XP total 4294967295 (`u32::MAX`) the
level computed by `Skills::calculate_level` is 98 — never 99 — whatever
values the floating-point increment expression takes, because the loop
breaks at `level >= 99` and then subtracts 1.  The claim (and spec §4.4 /
§8.6) requires the largest `L ≤ 99` whose threshold is `≤ xp`, i.e. 99
here. -/
theorem c4_calculate_level_caps_at_98 (inc : Nat → Nat) :
    Skills.calculate_level inc 4294967295 = 98 := by
  unfold Skills.calculate_level
  rw [calcLoop_at_max inc 98 1 0 (by omega) (by omega) (by omega)]
  decide

/-! ## Action durations (C7) -/

/-- C7, counterexample to the claim as stated: `GameAction::tick_delay`
reports 4 ticks for `ChopTree`, not the 5 ticks (3.0 s) the spec
assigns. -/
theorem c7_tick_delay_counterexample :
    GameAction.tick_delay (.ChopTree 0) = 4 ∧
      GameAction.tick_delay (.ChopTree 0) ≠ 5 := by
  constructor
  · rfl
  · decide

/-- C7 (amended): the durations `process_action_queue` schedules are
exactly the spec's tick counts times `TICK_RATE` (Move 1 tick — and 1
tick per further path step — ChopTree 5 ticks = 3.0 s, Attack 4, UseItem
1, Interact 2); `tick_delay` reports the same counts for every variant
except `ChopTree`, for which it reports 4. -/
theorem c7_scheduled_durations (a : GameAction) (rest : List GameAction)
    (pos : TilePosition) (t : Rat) :
    (Server.process_action_queue ⟨a :: rest, none⟩ pos t).1.current_action =
      some ⟨a, t, t + (specTickCount a : Rat) * TICK_RATE, 0⟩ ∧
    (∀ aip : Server.ActionInProgress, ∀ path : List TilePosition,
      aip.action = GameAction.Move path →
      aip.completion_time ≤ t →
      aip.current_path_index + 1 < path.length →
      (Server.process_action_queue ⟨rest, some aip⟩ pos t).1.current_action =
        some { aip with
          current_path_index := aip.current_path_index + 1,
          completion_time := t + 1 * TICK_RATE }) ∧
    (∀ id, a = GameAction.ChopTree id → GameAction.tick_delay a = 4) ∧
    ((∀ id, a ≠ GameAction.ChopTree id) →
      GameAction.tick_delay a = specTickCount a) := by
  refine ⟨?_, ?_, ?_, ?_⟩
  · cases a <;>
      simp [Server.process_action_queue, specTickCount, TICK_RATE] <;>
      norm_num
  · intro aip path hact hle hlt
    simp only [Server.process_action_queue, hact, if_pos hle, dif_pos hlt]
    simp [TICK_RATE]
  · intro id ha
    subst ha
    rfl
  · intro hne
    cases ha : a <;> simp [GameAction.tick_delay, specTickCount]
    exact absurd rfl (ha ▸ hne _)

/-! ## Move queuing policy (C9) -/

/-- C9: receiving `QueueAction(Move)` appends the move to the back of the
player entity's queue, leaves the in-progress action untouched, and
`process_action_queue` never dequeues while an action is in progress —
so the previous move completes first. -/
theorem c9_move_appends (s : Server.ServerState) (pid : PlayerId)
    (player : Server.ServerPlayer) (entity : Server.ServerEntity)
    (path : List TilePosition)
    (hp : alookup s.players pid = some player)
    (he : alookup s.entities player.entity_id = some entity) :
    alookup (Server.handle_queue_action s pid (.Move path)).1.entities
        player.entity_id =
      some { entity with action_queue :=
        { actions := entity.action_queue.actions ++ [GameAction.Move path],
          current_action := entity.action_queue.current_action } } ∧
    (Server.handle_queue_action s pid (.Move path)).2 =
      [Server.Event.toPlayer pid (.ActionQueued (.Move path))] ∧
    (∀ q : Server.ActionQueue, ∀ aip pos t, q.current_action = some aip →
      (Server.process_action_queue q pos t).1.actions = q.actions) := by
  refine ⟨?_, ?_, ?_⟩
  · simp only [Server.handle_queue_action, hp, he]
    rw [if_neg (by simp)]
    rw [alookup_aupdate, if_pos rfl, he, Option.map_some']
  · simp only [Server.handle_queue_action, hp, he]
    simp
  · intro q aip pos t hq
    simp only [Server.process_action_queue, hq]
    split
    · cases aip.action <;> simp
      split <;> simp
    · simp

/-! ## RequestPath side effect (C10) -/

/-- C10: a `RequestPath` whose path is found replies `PathFound` **and**
appends a `Move{path}` to the requesting player's queue; when no path is
found it replies `PathNotFound` and leaves the state unchanged. -/
theorem c10_request_path_enqueues (s : Server.ServerState) (pid : PlayerId)
    (player : Server.ServerPlayer) (entity : Server.ServerEntity)
    (start goal : TilePosition) (fuel : Nat)
    (hp : alookup s.players pid = some player)
    (he : alookup s.entities player.entity_id = some entity) :
    (∀ path, Server.find_path s.pathfinder start goal fuel = some path →
      alookup (Server.handle_request_path s pid start goal fuel).1.entities
          player.entity_id =
        some { entity with action_queue :=
          { actions := entity.action_queue.actions ++ [GameAction.Move path],
            current_action := entity.action_queue.current_action } } ∧
      (Server.handle_request_path s pid start goal fuel).2 =
        [Server.Event.toPlayer pid (.PathFound path)]) ∧
    (Server.find_path s.pathfinder start goal fuel = none →
      Server.handle_request_path s pid start goal fuel =
        (s, [Server.Event.toPlayer pid .PathNotFound])) := by
  constructor
  · intro path hfound
    constructor
    · simp only [Server.handle_request_path, hfound, hp, he]
      rw [alookup_aupdate, if_pos rfl, he, Option.map_some']
    · simp only [Server.handle_request_path, hfound, hp, he]
  · intro hnone
    simp only [Server.handle_request_path, hnone]

/-- C10 witness: on an empty obstacle set the request from `(0,0)` to
`(1,0)` is answered with `PathFound` and the move is enqueued. -/
theorem c10_request_path_enqueues_witness :
    alookup (Server.handle_request_path
        (Server.ServerState.mk [(⟨7⟩, ⟨2, "Alice"⟩)]
          [(2, ⟨⟨0, 0⟩, some ⟨7⟩, ⟨[], none⟩, false, none, none, none⟩)]
          [] ⟨[], false⟩)
        ⟨7⟩ ⟨0, 0⟩ ⟨1, 0⟩ 10).1.entities 2 =
      some ⟨⟨0, 0⟩, some ⟨7⟩, ⟨[GameAction.Move [⟨0, 0⟩, ⟨1, 0⟩]], none⟩,
        false, none, none, none⟩ ∧
    (Server.handle_request_path
        (Server.ServerState.mk [(⟨7⟩, ⟨2, "Alice"⟩)]
          [(2, ⟨⟨0, 0⟩, some ⟨7⟩, ⟨[], none⟩, false, none, none, none⟩)]
          [] ⟨[], false⟩)
        ⟨7⟩ ⟨0, 0⟩ ⟨1, 0⟩ 10).2 =
      [Server.Event.toPlayer ⟨7⟩ (.PathFound [⟨0, 0⟩, ⟨1, 0⟩])] := by
  have h := (c10_request_path_enqueues
    (Server.ServerState.mk [(⟨7⟩, ⟨2, "Alice"⟩)]
      [(2, ⟨⟨0, 0⟩, some ⟨7⟩, ⟨[], none⟩, false, none, none, none⟩)]
      [] ⟨[], false⟩)
    ⟨7⟩ ⟨2, "Alice"⟩ ⟨⟨0, 0⟩, some ⟨7⟩, ⟨[], none⟩, false, none, none, none⟩
    ⟨0, 0⟩ ⟨1, 0⟩ 10 (by decide) (by decide)).1
    [⟨0, 0⟩, ⟨1, 0⟩] (by decide)
  exact ⟨h.1, h.2⟩

/-- C9 witness: a player whose entity has a `Move` in progress receives a
new `Move`; the new action lands at the back of the queue and the
in-progress one is untouched. -/
theorem c9_move_appends_witness :
    alookup (Server.handle_queue_action
        (Server.ServerState.mk [(⟨7⟩, ⟨2, "Alice"⟩)]
          [(2, ⟨⟨0, 0⟩, some ⟨7⟩,
            ⟨[GameAction.Move [⟨0, 1⟩]],
             some ⟨GameAction.Move [⟨1, 0⟩], 0, 3 / 5, 0⟩⟩,
            false, none, none, none⟩)]
          [] ⟨[], false⟩)
        ⟨7⟩ (.Move [⟨2, 0⟩])).1.entities 2 =
      some ⟨⟨0, 0⟩, some ⟨7⟩,
        ⟨[GameAction.Move [⟨0, 1⟩], GameAction.Move [⟨2, 0⟩]],
         some ⟨GameAction.Move [⟨1, 0⟩], 0, 3 / 5, 0⟩⟩,
        false, none, none, none⟩ := by
  have h := (c9_move_appends
    (Server.ServerState.mk [(⟨7⟩, ⟨2, "Alice"⟩)]
      [(2, ⟨⟨0, 0⟩, some ⟨7⟩,
        ⟨[GameAction.Move [⟨0, 1⟩]],
         some ⟨GameAction.Move [⟨1, 0⟩], 0, 3 / 5, 0⟩⟩,
        false, none, none, none⟩)]
      [] ⟨[], false⟩)
    ⟨7⟩ ⟨2, "Alice"⟩
    ⟨⟨0, 0⟩, some ⟨7⟩,
      ⟨[GameAction.Move [⟨0, 1⟩]],
       some ⟨GameAction.Move [⟨1, 0⟩], 0, 3 / 5, 0⟩⟩,
      false, none, none, none⟩
    [⟨2, 0⟩] (by rfl) (by rfl)).1
  exact h

/-! ## Woodcutting validation at enqueue time (C5) -/

/-- C5, counterexample to the claim as stated: the validation is **not**
re-run on the completing tick.  Concrete state: tree entity 1 is already
chopped and player entity 2 (player id 7) has no axe — both validation
failures — yet `handle_woodcutting_completion` still grants the logs and
the XP, and sends neither `NotEnoughLevel` nor `NoAxeEquipped`. -/
theorem c5_no_completion_revalidation_counterexample :
    ((alookup (Server.ServerState.mk [(⟨7⟩, ⟨2, "Alice"⟩)]
        [(1, ⟨⟨-3, -3⟩, none, ⟨[], none⟩, false, none, none,
            some ⟨.Normal, true, 2⟩⟩),
         (2, ⟨⟨-3, -2⟩, some ⟨7⟩, ⟨[], some ⟨.ChopTree 1, 0, 3, 0⟩⟩, false,
            some (Inventory.new 28), some Skills.new, none⟩)]
        [] ⟨[], false⟩).entities 1).bind
      (fun e => e.tree)).map (fun t => t.is_chopped) = some true ∧
    ((alookup (Server.ServerState.mk [(⟨7⟩, ⟨2, "Alice"⟩)]
        [(1, ⟨⟨-3, -3⟩, none, ⟨[], none⟩, false, none, none,
            some ⟨.Normal, true, 2⟩⟩),
         (2, ⟨⟨-3, -2⟩, some ⟨7⟩, ⟨[], some ⟨.ChopTree 1, 0, 3, 0⟩⟩, false,
            some (Inventory.new 28), some Skills.new, none⟩)]
        [] ⟨[], false⟩).entities 2).bind
      (fun e => e.inventory)).map (fun i => i.has_any_axe) = some none ∧
    ((alookup (Server.handle_woodcutting_completion (fun _ => 1) 2 1
        (Server.ServerState.mk [(⟨7⟩, ⟨2, "Alice"⟩)]
          [(1, ⟨⟨-3, -3⟩, none, ⟨[], none⟩, false, none, none,
              some ⟨.Normal, true, 2⟩⟩),
           (2, ⟨⟨-3, -2⟩, some ⟨7⟩, ⟨[], some ⟨.ChopTree 1, 0, 3, 0⟩⟩, false,
              some (Inventory.new 28), some Skills.new, none⟩)]
          [] ⟨[], false⟩)).1.entities 2).bind
      (fun e => e.skills)).map (fun sk => sk.get_experience .Woodcutting) =
        some 25 ∧
    (Server.Event.toPlayer ⟨7⟩ (.ItemAdded .Logs 1)) ∈
      (Server.handle_woodcutting_completion (fun _ => 1) 2 1
        (Server.ServerState.mk [(⟨7⟩, ⟨2, "Alice"⟩)]
          [(1, ⟨⟨-3, -3⟩, none, ⟨[], none⟩, false, none, none,
              some ⟨.Normal, true, 2⟩⟩),
           (2, ⟨⟨-3, -2⟩, some ⟨7⟩, ⟨[], some ⟨.ChopTree 1, 0, 3, 0⟩⟩, false,
              some (Inventory.new 28), some Skills.new, none⟩)]
          [] ⟨[], false⟩)).2 ∧
    (∀ e ∈ (Server.handle_woodcutting_completion (fun _ => 1) 2 1
        (Server.ServerState.mk [(⟨7⟩, ⟨2, "Alice"⟩)]
          [(1, ⟨⟨-3, -3⟩, none, ⟨[], none⟩, false, none, none,
              some ⟨.Normal, true, 2⟩⟩),
           (2, ⟨⟨-3, -2⟩, some ⟨7⟩, ⟨[], some ⟨.ChopTree 1, 0, 3, 0⟩⟩, false,
              some (Inventory.new 28), some Skills.new, none⟩)]
          [] ⟨[], false⟩)).2,
      e ≠ Server.Event.toPlayer ⟨7⟩ .NoAxeEquipped ∧
      ∀ sk req cur, e ≠ Server.Event.toPlayer ⟨7⟩ (.NotEnoughLevel sk req cur)) := by
  refine ⟨by decide, by decide, by decide, by decide, ?_⟩
  intro e he
  fin_cases he <;> exact ⟨by decide, fun sk req cur => by simp⟩

/-- C5 (amended): the `ChopTree` validation (tree exists and not chopped,
Woodcutting level, any axe) runs at **enqueue time only**; on a level
failure the server sends `NotEnoughLevel` and discards, on a missing axe
it sends `NoAxeEquipped` and discards, on a missing or already-chopped
tree it discards silently, and only when all checks pass is the action
appended and `ActionQueued` sent.  (The completing tick re-validates
nothing; see the counterexample.) -/
theorem c5_enqueue_validation (s : Server.ServerState) (pid : PlayerId)
    (player : Server.ServerPlayer) (p_entity t_entity : Server.ServerEntity)
    (tid : Nat) (t : Tree) (skills : Skills) (inventory : Inventory)
    (hp : alookup s.players pid = some player)
    (hpe : alookup s.entities player.entity_id = some p_entity)
    (hte : alookup s.entities tid = some t_entity)
    (htree : t_entity.tree = some t)
    (hsk : p_entity.skills = some skills)
    (hinv : p_entity.inventory = some inventory) :
    (t.is_chopped = false →
      skills.get_level .Woodcutting < (TreeDefinition.get t.tree_type).level_required →
      Server.handle_queue_action s pid (.ChopTree tid) =
        (s, [Server.Event.toPlayer pid (.NotEnoughLevel .Woodcutting
              (TreeDefinition.get t.tree_type).level_required
              (skills.get_level .Woodcutting))])) ∧
    (t.is_chopped = false →
      (TreeDefinition.get t.tree_type).level_required ≤ skills.get_level .Woodcutting →
      inventory.has_any_axe = none →
      Server.handle_queue_action s pid (.ChopTree tid) =
        (s, [Server.Event.toPlayer pid .NoAxeEquipped])) ∧
    (t.is_chopped = true →
      Server.handle_queue_action s pid (.ChopTree tid) = (s, [])) ∧
    (t.is_chopped = false →
      (TreeDefinition.get t.tree_type).level_required ≤ skills.get_level .Woodcutting →
      (inventory.has_any_axe).isSome →
      alookup (Server.handle_queue_action s pid (.ChopTree tid)).1.entities
          player.entity_id =
        some { p_entity with action_queue :=
          { actions := p_entity.action_queue.actions ++ [GameAction.ChopTree tid],
            current_action := p_entity.action_queue.current_action } } ∧
      (Server.handle_queue_action s pid (.ChopTree tid)).2 =
        [Server.Event.toPlayer pid (.ActionQueued (.ChopTree tid))]) := by
  refine ⟨?_, ?_, ?_, ?_⟩
  · intro hchop hlv
    simp only [Server.handle_queue_action, hp, hpe, hte,
      Server.validate_woodcutting_action, htree, hchop, hsk, hinv]
    simp [if_pos hlv]
  · intro hchop hlv haxe
    simp only [Server.handle_queue_action, hp, hpe, hte,
      Server.validate_woodcutting_action, htree, hchop, hsk, hinv]
    rw [if_neg (Nat.not_lt.mpr hlv)]
    simp [haxe]
  · intro hchop
    simp only [Server.handle_queue_action, hp, hpe, hte,
      Server.validate_woodcutting_action, htree, hchop]
    simp
  · intro hchop hlv haxe
    simp only [Server.handle_queue_action, hp, hpe, hte,
      Server.validate_woodcutting_action, htree, hchop, hsk, hinv]
    rw [if_neg (Nat.not_lt.mpr hlv), if_pos haxe]
    constructor
    · rw [if_neg (by simp)]
      simp only []
      rw [alookup_aupdate, if_pos rfl, hpe, Option.map_some']
    · rw [if_neg (by simp)]
      simp

/-- C5 witness: the level-1 player with a bronze axe who queues a chop on
the willow (level 30) gets `NotEnoughLevel{Woodcutting, 30, 1}` and
nothing is enqueued. -/
theorem c5_enqueue_validation_witness :
    Server.handle_queue_action
        (Server.ServerState.mk [(⟨7⟩, ⟨2, "Alice"⟩)]
          [(1, ⟨⟨-3, 3⟩, none, ⟨[], none⟩, false, none, none,
              some ⟨.Willow, false, 0⟩⟩),
           (2, ⟨⟨0, 0⟩, some ⟨7⟩, ⟨[], none⟩, false,
              some ((Inventory.new 28).add_item .BronzeAxe 1).2,
              some Skills.new, none⟩)]
          [] ⟨[], false⟩)
        ⟨7⟩ (.ChopTree 1) =
      (Server.ServerState.mk [(⟨7⟩, ⟨2, "Alice"⟩)]
        [(1, ⟨⟨-3, 3⟩, none, ⟨[], none⟩, false, none, none,
            some ⟨.Willow, false, 0⟩⟩),
         (2, ⟨⟨0, 0⟩, some ⟨7⟩, ⟨[], none⟩, false,
            some ((Inventory.new 28).add_item .BronzeAxe 1).2,
            some Skills.new, none⟩)]
        [] ⟨[], false⟩,
       [Server.Event.toPlayer ⟨7⟩ (.NotEnoughLevel .Woodcutting 30 1)]) := by
  have h := (c5_enqueue_validation
    (Server.ServerState.mk [(⟨7⟩, ⟨2, "Alice"⟩)]
      [(1, ⟨⟨-3, 3⟩, none, ⟨[], none⟩, false, none, none,
          some ⟨.Willow, false, 0⟩⟩),
       (2, ⟨⟨0, 0⟩, some ⟨7⟩, ⟨[], none⟩, false,
          some ((Inventory.new 28).add_item .BronzeAxe 1).2,
          some Skills.new, none⟩)]
      [] ⟨[], false⟩)
    ⟨7⟩ ⟨2, "Alice"⟩
    ⟨⟨0, 0⟩, some ⟨7⟩, ⟨[], none⟩, false,
      some ((Inventory.new 28).add_item .BronzeAxe 1).2, some Skills.new, none⟩
    ⟨⟨-3, 3⟩, none, ⟨[], none⟩, false, none, none, some ⟨.Willow, false, 0⟩⟩
    1 ⟨.Willow, false, 0⟩ Skills.new ((Inventory.new 28).add_item .BronzeAxe 1).2
    (by decide) (by decide) (by decide) (by decide) (by decide) (by decide)).1
    (by decide) (by decide)
  exact h

/-! ## Woodcutting completion effects and message order (C6) -/

/-- C6, counterexample to the claim as stated: on a successful completion
the server sends `ActionCompleted` to the acting player **before**
broadcasting `TreeChopped` — the claim asserts the opposite order.
Concrete run: player entity 2 (player id 7, bronze axe, level 1) finishes
chopping normal tree entity 1; in the emitted sequence `ActionCompleted`
has index 4 and `TreeChopped` index 5. -/
theorem c6_order_counterexample :
    Server.Event.broadcast (.TreeChopped 1) ∈
      (Server.handle_woodcutting_completion (fun _ => 1) 2 1
        (Server.ServerState.mk [(⟨7⟩, ⟨2, "Alice"⟩)]
          [(1, ⟨⟨-3, -3⟩, none, ⟨[], none⟩, false, none, none,
              some ⟨.Normal, false, 0⟩⟩),
           (2, ⟨⟨-3, -2⟩, some ⟨7⟩, ⟨[], some ⟨.ChopTree 1, 0, 3, 0⟩⟩, false,
              some ((Inventory.new 28).add_item .BronzeAxe 1).2,
              some Skills.new, none⟩)]
          [] ⟨[], false⟩)).2 ∧
    Server.Event.toPlayer ⟨7⟩ (.ActionCompleted 2) ∈
      (Server.handle_woodcutting_completion (fun _ => 1) 2 1
        (Server.ServerState.mk [(⟨7⟩, ⟨2, "Alice"⟩)]
          [(1, ⟨⟨-3, -3⟩, none, ⟨[], none⟩, false, none, none,
              some ⟨.Normal, false, 0⟩⟩),
           (2, ⟨⟨-3, -2⟩, some ⟨7⟩, ⟨[], some ⟨.ChopTree 1, 0, 3, 0⟩⟩, false,
              some ((Inventory.new 28).add_item .BronzeAxe 1).2,
              some Skills.new, none⟩)]
          [] ⟨[], false⟩)).2 ∧
    ¬ (((Server.handle_woodcutting_completion (fun _ => 1) 2 1
        (Server.ServerState.mk [(⟨7⟩, ⟨2, "Alice"⟩)]
          [(1, ⟨⟨-3, -3⟩, none, ⟨[], none⟩, false, none, none,
              some ⟨.Normal, false, 0⟩⟩),
           (2, ⟨⟨-3, -2⟩, some ⟨7⟩, ⟨[], some ⟨.ChopTree 1, 0, 3, 0⟩⟩, false,
              some ((Inventory.new 28).add_item .BronzeAxe 1).2,
              some Skills.new, none⟩)]
          [] ⟨[], false⟩)).2.indexOf (Server.Event.broadcast (.TreeChopped 1))) <
      ((Server.handle_woodcutting_completion (fun _ => 1) 2 1
        (Server.ServerState.mk [(⟨7⟩, ⟨2, "Alice"⟩)]
          [(1, ⟨⟨-3, -3⟩, none, ⟨[], none⟩, false, none, none,
              some ⟨.Normal, false, 0⟩⟩),
           (2, ⟨⟨-3, -2⟩, some ⟨7⟩, ⟨[], some ⟨.ChopTree 1, 0, 3, 0⟩⟩, false,
              some ((Inventory.new 28).add_item .BronzeAxe 1).2,
              some Skills.new, none⟩)]
          [] ⟨[], false⟩)).2.indexOf
        (Server.Event.toPlayer ⟨7⟩ (.ActionCompleted 2)))) := by
  refine ⟨by decide, by decide, by decide⟩

/-- C6 (amended: `ActionCompleted` is sent to the acting player first and
`TreeChopped` is broadcast after it): on the completing tick the server
marks the tree chopped with its respawn timer reset, grants one unit of
the tree's logs (skipping the grant when the inventory is full), adds the
tree's XP to Woodcutting, and emits in order `ItemAdded`,
`InventoryUpdate` (both only when the grant succeeded),
`ExperienceGained`, `SkillUpdate`, `LevelUp` when the level increased,
then `ActionCompleted` to the acting player, then the `TreeChopped`
broadcast; the in-progress action is cleared. -/
theorem c6_completion_effects (calcLevel : Nat → Nat)
    (s : Server.ServerState) (peid tid : Nat) (pid : PlayerId)
    (t_entity p_entity : Server.ServerEntity) (t : Tree) (inv : Inventory)
    (sk : Skills) (td : TreeDefinition) (addRes : Bool × Inventory)
    (xpRes : Skills × Bool) (wcData : SkillData)
    (hne : peid ≠ tid)
    (hte : alookup s.entities tid = some t_entity)
    (htree : t_entity.tree = some t)
    (hpe : alookup s.entities peid = some p_entity)
    (hpid : p_entity.player_id = some pid)
    (hinv : p_entity.inventory = some inv)
    (hsk : p_entity.skills = some sk)
    (htd : td = TreeDefinition.get t.tree_type)
    (haddRes : addRes = inv.add_item td.logs_given 1)
    (hxpRes : xpRes = sk.add_experience calcLevel .Woodcutting td.experience)
    (hwcData : wcData = (alookup xpRes.1.skills .Woodcutting).getD ⟨1, 0⟩) :
    (Server.handle_woodcutting_completion calcLevel peid tid s).2 =
      (if addRes.1 then
        [Server.Event.toPlayer pid (.ItemAdded td.logs_given 1),
         Server.Event.toPlayer pid (.InventoryUpdate addRes.2)]
       else []) ++
      [Server.Event.toPlayer pid (.ExperienceGained .Woodcutting td.experience),
       Server.Event.toPlayer pid
         (.SkillUpdate .Woodcutting wcData.level wcData.experience)] ++
      (if xpRes.2 then
        [Server.Event.toPlayer pid (.LevelUp .Woodcutting wcData.level)]
       else []) ++
      [Server.Event.toPlayer pid (.ActionCompleted peid),
       Server.Event.broadcast (.TreeChopped tid)] ∧
    alookup (Server.handle_woodcutting_completion calcLevel peid tid s).1.entities
        tid =
      some
        { t_entity with
          tree := some { t with is_chopped := true, respawn_timer := 0 } } ∧
    alookup (Server.handle_woodcutting_completion calcLevel peid tid s).1.entities
        peid =
      some
        { p_entity with
          inventory := if addRes.1 then some addRes.2 else some inv,
          skills := some xpRes.1,
          action_queue :=
            { actions := p_entity.action_queue.actions,
              current_action := none } } := by
  subst htd haddRes hxpRes hwcData
  have hlook :
      alookup (aupdate s.entities tid
        { t_entity with
          tree := some { t with is_chopped := true, respawn_timer := 0 } }) peid =
      some p_entity := by
    rw [alookup_aupdate, if_neg (fun h => hne h.symm), hpe]
  have hlookt :
      ∀ v : Server.ServerEntity,
        alookup (aupdate (aupdate s.entities tid
          { t_entity with
            tree := some { t with is_chopped := true, respawn_timer := 0 } })
          peid v) tid =
        some
          { t_entity with
            tree := some { t with is_chopped := true, respawn_timer := 0 } } := by
    intro v
    rw [alookup_aupdate, if_neg hne, alookup_aupdate, if_pos rfl, hte,
      Option.map_some']
  refine ⟨?_, ?_, ?_⟩
  · simp only [Server.handle_woodcutting_completion, hte, htree, hlook, hpid,
      hinv, hsk]
    cases hadd : inv.add_item (TreeDefinition.get t.tree_type).logs_given 1 with
    | mk added inv' =>
      cases added <;> simp
  · simp only [Server.handle_woodcutting_completion, hte, htree, hlook, hpid,
      hinv, hsk]
    cases hadd : inv.add_item (TreeDefinition.get t.tree_type).logs_given 1 with
    | mk added inv' =>
      cases added <;> simp [hlookt]
  · simp only [Server.handle_woodcutting_completion, hte, htree, hlook, hpid,
      hinv, hsk]
    cases hadd : inv.add_item (TreeDefinition.get t.tree_type).logs_given 1 with
    | mk added inv' =>
      cases added <;>
        · simp only []
          rw [alookup_aupdate, if_pos rfl, hlook, Option.map_some']
          simp [hinv]

/-- C6 witness: the concrete completion run of the counterexample state,
with every consequence of the amended claim instantiated. -/
theorem c6_completion_effects_witness :
    (Server.handle_woodcutting_completion (fun _ => 1) 2 1
      (Server.ServerState.mk [(⟨7⟩, ⟨2, "Alice"⟩)]
        [(1, ⟨⟨-3, -3⟩, none, ⟨[], none⟩, false, none, none,
            some ⟨.Normal, false, 0⟩⟩),
         (2, ⟨⟨-3, -2⟩, some ⟨7⟩, ⟨[], some ⟨.ChopTree 1, 0, 3, 0⟩⟩, false,
            some ((Inventory.new 28).add_item .BronzeAxe 1).2,
            some Skills.new, none⟩)]
        [] ⟨[], false⟩)).2 =
      [Server.Event.toPlayer ⟨7⟩ (.ItemAdded .Logs 1),
       Server.Event.toPlayer ⟨7⟩ (.InventoryUpdate
         (((Inventory.new 28).add_item .BronzeAxe 1).2.add_item .Logs 1).2),
       Server.Event.toPlayer ⟨7⟩ (.ExperienceGained .Woodcutting 25),
       Server.Event.toPlayer ⟨7⟩ (.SkillUpdate .Woodcutting 1 25),
       Server.Event.toPlayer ⟨7⟩ (.ActionCompleted 2),
       Server.Event.broadcast (.TreeChopped 1)] ∧
    alookup (Server.handle_woodcutting_completion (fun _ => 1) 2 1
      (Server.ServerState.mk [(⟨7⟩, ⟨2, "Alice"⟩)]
        [(1, ⟨⟨-3, -3⟩, none, ⟨[], none⟩, false, none, none,
            some ⟨.Normal, false, 0⟩⟩),
         (2, ⟨⟨-3, -2⟩, some ⟨7⟩, ⟨[], some ⟨.ChopTree 1, 0, 3, 0⟩⟩, false,
            some ((Inventory.new 28).add_item .BronzeAxe 1).2,
            some Skills.new, none⟩)]
        [] ⟨[], false⟩)).1.entities 1 =
      some ⟨⟨-3, -3⟩, none, ⟨[], none⟩, false, none, none,
        some ⟨.Normal, true, 0⟩⟩ := by
  have h := c6_completion_effects (fun _ => 1)
    (Server.ServerState.mk [(⟨7⟩, ⟨2, "Alice"⟩)]
      [(1, ⟨⟨-3, -3⟩, none, ⟨[], none⟩, false, none, none,
          some ⟨.Normal, false, 0⟩⟩),
       (2, ⟨⟨-3, -2⟩, some ⟨7⟩, ⟨[], some ⟨.ChopTree 1, 0, 3, 0⟩⟩, false,
          some ((Inventory.new 28).add_item .BronzeAxe 1).2,
          some Skills.new, none⟩)]
      [] ⟨[], false⟩)
    2 1 ⟨7⟩
    ⟨⟨-3, -3⟩, none, ⟨[], none⟩, false, none, none, some ⟨.Normal, false, 0⟩⟩
    ⟨⟨-3, -2⟩, some ⟨7⟩, ⟨[], some ⟨.ChopTree 1, 0, 3, 0⟩⟩, false,
      some ((Inventory.new 28).add_item .BronzeAxe 1).2, some Skills.new, none⟩
    ⟨.Normal, false, 0⟩
    ((Inventory.new 28).add_item .BronzeAxe 1).2
    Skills.new
    (TreeDefinition.get .Normal)
    (((Inventory.new 28).add_item .BronzeAxe 1).2.add_item
      (TreeDefinition.get .Normal).logs_given 1)
    (Skills.new.add_experience (fun _ => 1) .Woodcutting
      (TreeDefinition.get .Normal).experience)
    ⟨1, 25⟩
    (by decide) (by rfl) (by rfl) (by rfl) (by rfl) (by rfl) (by rfl) (by rfl)
    (by rfl) ?_ ?_
  · refine ⟨?_, h.2.1⟩
    · exact h.1.trans (by decide)
  · decide
  · decide

/-! ## Client reconciliation (C2) -/

/-- C2: on an authoritative delta for the local player's entity carrying
`last_processed_input = n`, with reconciliation enabled the client keeps
exactly the pending inputs with sequence number `> n` and the local
`tile_position` becomes the fold of the inputs' position effects over the
server position; with reconciliation disabled the pending inputs are
cleared. -/
theorem c2_reconciliation_fold (s : Client.ClientState) (tnow : Rat)
    (eid : Nat) (pos : TilePosition) (n : Nat) (ent : Client.ClientEntity)
    (dt : Messages.DeltaType) (pid : PlayerId)
    (hdt : (dt = .FullState pos (some pid) (some n) ∧ s.my_player_id = some pid) ∨
           (dt = .PositionOnly pos (some n) ∧ s.my_entity_id = some eid))
    (hent : alookup s.visible_entities eid = some ent) :
    (s.server_reconciliation = true →
      (Client.applyDelta s tnow ⟨eid, dt⟩).pending_inputs =
        s.pending_inputs.filter
          (fun input => n < input.input_sequence_number) ∧
      (alookup (Client.applyDelta s tnow ⟨eid, dt⟩).visible_entities eid).map
          (fun e => e.tile_position) =
        some ((s.pending_inputs.filter
            (fun input => n < input.input_sequence_number)).foldl
          (fun p input => Client.apply_action_to_position input.action p) pos)) ∧
    (s.server_reconciliation = false →
      (Client.applyDelta s tnow ⟨eid, dt⟩).pending_inputs = []) := by
  rcases hdt with ⟨hdt, hmy⟩ | ⟨hdt, hmyent⟩ <;> subst hdt
  · constructor
    · intro hrec
      simp [Client.applyDelta, hent, hmy, Client.updEnt, hrec,
        Client.reconcile_client_state, alookup_aupdate]
    · intro hrec
      simp [Client.applyDelta, hent, hmy, Client.updEnt, hrec,
        Client.reconcile_client_state, alookup_aupdate]
  · constructor
    · intro hrec
      rcases hconf : s.confirmed_path with _ | path
      · simp [Client.applyDelta, hent, hmyent, Client.updEnt, hrec,
          Client.reconcile_client_state, alookup_aupdate, hconf]
      · by_cases hlast : path.getLast? = some pos
        · simp [Client.applyDelta, hent, hmyent, Client.updEnt, hrec,
            Client.reconcile_client_state, alookup_aupdate, hconf, hlast]
        · simp [Client.applyDelta, hent, hmyent, Client.updEnt, hrec,
            Client.reconcile_client_state, alookup_aupdate, hconf, hlast]
    · intro hrec
      rcases hconf : s.confirmed_path with _ | path
      · simp [Client.applyDelta, hent, hmyent, Client.updEnt, hrec,
          Client.reconcile_client_state, alookup_aupdate, hconf]
      · by_cases hlast : path.getLast? = some pos
        · simp [Client.applyDelta, hent, hmyent, Client.updEnt, hrec,
            Client.reconcile_client_state, alookup_aupdate, hconf, hlast]
        · simp [Client.applyDelta, hent, hmyent, Client.updEnt, hrec,
            Client.reconcile_client_state, alookup_aupdate, hconf, hlast]

/-- C2 witness: with pending inputs 0 and 1 and a `PositionOnly` delta
carrying `last_processed_input = 0`, reconciliation keeps only input 1
and re-applies it on top of the server position. -/
theorem c2_reconciliation_fold_witness :
    (Client.applyDelta
      (Client.ClientState.mk (some ⟨1⟩) (some 5)
        [(5, ⟨⟨0, 0⟩, some ⟨1⟩, none, [], ⟨0, 0⟩, none⟩)]
        none none
        [⟨0, .Move [⟨1, 0⟩]⟩, ⟨1, .Move [⟨1, 1⟩]⟩]
        true true (1 / 10))
      0 ⟨5, .PositionOnly ⟨1, 0⟩ (some 0)⟩).pending_inputs =
      [⟨1, .Move [⟨1, 1⟩]⟩] ∧
    (alookup (Client.applyDelta
      (Client.ClientState.mk (some ⟨1⟩) (some 5)
        [(5, ⟨⟨0, 0⟩, some ⟨1⟩, none, [], ⟨0, 0⟩, none⟩)]
        none none
        [⟨0, .Move [⟨1, 0⟩]⟩, ⟨1, .Move [⟨1, 1⟩]⟩]
        true true (1 / 10))
      0 ⟨5, .PositionOnly ⟨1, 0⟩ (some 0)⟩).visible_entities 5).map
        (fun e => e.tile_position) = some ⟨1, 1⟩ := by
  have h := (c2_reconciliation_fold
    (Client.ClientState.mk (some ⟨1⟩) (some 5)
      [(5, ⟨⟨0, 0⟩, some ⟨1⟩, none, [], ⟨0, 0⟩, none⟩)]
      none none
      [⟨0, .Move [⟨1, 0⟩]⟩, ⟨1, .Move [⟨1, 1⟩]⟩]
      true true (1 / 10))
    0 5 ⟨1, 0⟩ 0 ⟨⟨0, 0⟩, some ⟨1⟩, none, [], ⟨0, 0⟩, none⟩
    (.PositionOnly ⟨1, 0⟩ (some 0)) ⟨1⟩
    (Or.inr ⟨rfl, rfl⟩) (by rfl)).1 rfl
  refine ⟨h.1.trans (by decide), h.2.trans (by decide)⟩

/-! ## Client interpolation (C8) -/

theorem alookup_map_snd {β γ : Type} (l : List (Nat × β)) (g : Nat → β → γ)
    (k : Nat) :
    alookup (l.map (fun e => (e.1, g e.1 e.2))) k = (alookup l k).map (g k) := by
  induction l with
  | nil => rfl
  | cons hd tl ih =>
    obtain ⟨k', v'⟩ := hd
    by_cases hk : k' = k
    · subst hk
      simp [alookup]
    · simp [alookup, hk, ih]

/-- The pair scan of the code is the first surrounding pair among the
adjacent pairs of the buffer. -/
theorem findSurroundingPair_eq_find (buf : List Client.PositionSnapshot)
    (rt : Rat) :
    Client.findSurroundingPair buf rt =
      (buf.zip buf.tail).find?
        (fun p => decide (p.1.timestamp ≤ rt ∧ rt ≤ p.2.timestamp)) := by
  induction buf with
  | nil => rfl
  | cons s0 tl ih =>
    cases tl with
    | nil => rfl
    | cons s1 rest =>
      rw [Client.findSurroundingPair]
      by_cases hc : s0.timestamp ≤ rt ∧ rt ≤ s1.timestamp
      · rw [if_pos hc]
        simp [List.find?, hc]
      · rw [if_neg hc]
        rw [ih]
        simp only [List.zip, List.tail_cons]
        rw [List.zipWith_cons_cons, List.find?]
        simp [hc]

theorem findSurroundingPair_bounds {buf : List Client.PositionSnapshot}
    {rt : Rat} {s0 s1 : Client.PositionSnapshot}
    (h : Client.findSurroundingPair buf rt = some (s0, s1)) :
    s0.timestamp ≤ rt ∧ rt ≤ s1.timestamp := by
  induction buf with
  | nil => exact Option.noConfusion h
  | cons a tl ih =>
    cases tl with
    | nil => exact Option.noConfusion h
    | cons b rest =>
      rw [Client.findSurroundingPair] at h
      by_cases hc : a.timestamp ≤ rt ∧ rt ≤ b.timestamp
      · rw [if_pos hc] at h
        simp only [Option.some.injEq, Prod.mk.injEq] at h
        obtain ⟨h1, h2⟩ := h
        subst h1; subst h2
        exact hc
      · rw [if_neg hc] at h
        exact ih h

/-- C8, counterexample to the claim as stated: the code's
degenerate-interval guard (`|t1 − t0| > 0.0001`, else factor := 0)
contradicts the claimed pure `factor < 0.5` rule.  With snapshots at
times 0 and 1/10000 and `render_time = 1/10000`, the interpolation
factor is 1 ≥ 0.5 — the claim selects `s1.position = (5,5)` — but the
code displays `s0.position = (0,0)`. -/
theorem c8_interpolation_counterexample :
    Client.findSurroundingPair
        [⟨0, ⟨0, 0⟩⟩, ⟨1 / 10000, ⟨5, 5⟩⟩] (1 / 10000) =
      some (⟨0, ⟨0, 0⟩⟩, ⟨1 / 10000, ⟨5, 5⟩⟩) ∧
    ¬ ((((1 : Rat) / 10000) - 0) / ((1 / 10000) - 0) < 1 / 2) ∧
    (Client.interpolateEntity (1 / 10) (1 / 10 + 1 / 10000)
      ⟨⟨0, 0⟩, none, none, [⟨0, ⟨0, 0⟩⟩, ⟨1 / 10000, ⟨5, 5⟩⟩], ⟨9, 9⟩,
        none⟩).interpolated_position = some ⟨0, 0⟩ ∧
    (⟨0, 0⟩ : TilePosition) ≠ ⟨5, 5⟩ := by
  refine ⟨?_, by norm_num, ?_, by decide⟩
  · norm_num [Client.findSurroundingPair]
  · have hrt : (1 : Rat) / 10 + 1 / 10000 - 1 / 10 = 1 / 10000 := by norm_num
    simp only [Client.interpolateEntity, hrt]
    norm_num [Client.findSurroundingPair, abs_of_nonneg]

/-- C8 (amended: when the surrounding pair is closer together than the
0.0001 s guard the code treats the factor as 0 and displays
`s0.position`): the per-entity interpolation pass equals the spec-side
rule — evict snapshots older than `render_time − 1 s`, display
`server_position` unless a surrounding pair of surviving snapshots
exists, and otherwise select between `s0.position` and `s1.position` by
the interpolation factor with the degenerate-interval guard; and the
system applies this pass exactly to the visible entities that are
neither the local player nor trees (when interpolation is enabled). -/
theorem c8_interpolation_spec (delay now : Rat) (entity : Client.ClientEntity)
    (s : Client.ClientState) (id : Nat) (ent : Client.ClientEntity)
    (hon : s.entity_interpolation = true)
    (hid : alookup s.visible_entities id = some ent)
    (hmy : s.my_entity_id ≠ some id)
    (htree : ent.tree = none) :
    Client.interpolateEntity delay now entity =
      { entity with
          position_buffer := Client.specRetained delay now entity,
          interpolated_position := some (Client.specDisplayed delay now entity) } ∧
    alookup (Client.interpolate_entities s now).visible_entities id =
      some (Client.interpolateEntity s.interpolation_delay now ent) := by
  constructor
  · have hbuf : entity.position_buffer.filter
        (fun snapshot => decide (now - delay - 1 ≤ snapshot.timestamp)) =
        Client.specRetained delay now entity := by
      unfold Client.specRetained
      apply List.filter_congr
      intro x _
      simp [not_lt]
    simp only [Client.interpolateEntity, Client.specDisplayed]
    rw [← findSurroundingPair_eq_find]
    rw [hbuf]
    by_cases hlen : (Client.specRetained delay now entity).length < 2
    · rw [if_pos hlen]
      cases hfind : Client.findSurroundingPair
          (Client.specRetained delay now entity) (now - delay) with
      | none => rfl
      | some pr =>
        -- impossible: a surviving surrounding pair needs at least two snapshots
        exfalso
        obtain ⟨s0, s1⟩ := pr
        rw [findSurroundingPair_eq_find] at hfind
        have hmem := List.mem_of_find?_eq_some hfind
        cases hl : Client.specRetained delay now entity with
        | nil =>
          rw [hl] at hmem
          simp [List.zip] at hmem
        | cons a as =>
          cases as with
          | nil =>
            rw [hl] at hmem
            simp [List.zip] at hmem
          | cons b bs =>
            rw [hl] at hlen
            simp at hlen
            omega
    · rw [if_neg hlen]
      cases hfind : Client.findSurroundingPair
          (Client.specRetained delay now entity) (now - delay) with
      | none => rfl
      | some pr =>
        obtain ⟨s0, s1⟩ := pr
        obtain ⟨hb0, hb1⟩ := findSurroundingPair_bounds hfind
        dsimp only
        by_cases heps : s1.timestamp - s0.timestamp ≤ 1 / 10000
        · rw [if_pos heps]
          have hguard : ¬ (1 / 10000 < |s1.timestamp - s0.timestamp|) := by
            rw [abs_of_nonneg (by linarith)]
            linarith
          rw [if_neg hguard]
          norm_num
        · rw [if_neg heps]
          have hpos : (0 : Rat) < s1.timestamp - s0.timestamp := by
            by_contra hle
            push_neg at hle
            have : s1.timestamp - s0.timestamp ≤ 1 / 10000 := by linarith
            exact heps this
          have hguard : 1 / 10000 < |s1.timestamp - s0.timestamp| := by
            rw [abs_of_nonneg (by linarith)]
            by_contra hle
            push_neg at hle
            exact heps hle
          rw [if_pos hguard]
          have hfac0 : (0 : Rat) ≤
              (now - delay - s0.timestamp) / (s1.timestamp - s0.timestamp) :=
            div_nonneg (by linarith) (by linarith)
          have hfac1 :
              (now - delay - s0.timestamp) / (s1.timestamp - s0.timestamp) ≤ 1 := by
            rw [div_le_one hpos]
            linarith
          have hclamp :
              min (max ((now - delay - s0.timestamp) /
                (s1.timestamp - s0.timestamp)) 0) 1 =
              (now - delay - s0.timestamp) / (s1.timestamp - s0.timestamp) := by
            rw [max_eq_left hfac0, min_eq_left hfac1]
          rw [hclamp]
          split <;> rfl
  · unfold Client.interpolate_entities
    rw [if_neg (by simp [hon])]
    simp only []
    rw [alookup_map_snd s.visible_entities
      (fun k v =>
        if some k = s.my_entity_id then v
        else if v.tree.isSome then v
        else Client.interpolateEntity s.interpolation_delay now v) id]
    rw [hid, Option.map_some']
    rw [if_neg (fun h => hmy h.symm), if_neg (by simp [htree])]

/-- C8 witness: a remote entity with two surviving snapshots at times 0
and 1 s, rendered at `now = 1.1 s` with the default 100 ms delay: the
factor is 1, so the later snapshot's position is displayed, matching the
spec rule. -/
theorem c8_interpolation_spec_witness :
    Client.interpolateEntity (1 / 10) (11 / 10)
      ⟨⟨0, 0⟩, none, none, [⟨0, ⟨2, 2⟩⟩, ⟨1, ⟨3, 3⟩⟩], ⟨9, 9⟩, none⟩ =
      ⟨⟨0, 0⟩, none, none, [⟨0, ⟨2, 2⟩⟩, ⟨1, ⟨3, 3⟩⟩], ⟨9, 9⟩, some ⟨3, 3⟩⟩ ∧
    alookup (Client.interpolate_entities
      (Client.ClientState.mk none (some 1)
        [(2, ⟨⟨0, 0⟩, none, none, [⟨0, ⟨2, 2⟩⟩, ⟨1, ⟨3, 3⟩⟩], ⟨9, 9⟩, none⟩)]
        none none [] true true (1 / 10))
      (11 / 10)).visible_entities 2 =
      some (Client.interpolateEntity (1 / 10) (11 / 10)
        ⟨⟨0, 0⟩, none, none, [⟨0, ⟨2, 2⟩⟩, ⟨1, ⟨3, 3⟩⟩], ⟨9, 9⟩, none⟩) := by
  have h := c8_interpolation_spec (1 / 10) (11 / 10)
    ⟨⟨0, 0⟩, none, none, [⟨0, ⟨2, 2⟩⟩, ⟨1, ⟨3, 3⟩⟩], ⟨9, 9⟩, none⟩
    (Client.ClientState.mk none (some 1)
      [(2, ⟨⟨0, 0⟩, none, none, [⟨0, ⟨2, 2⟩⟩, ⟨1, ⟨3, 3⟩⟩], ⟨9, 9⟩, none⟩)]
      none none [] true true (1 / 10))
    2 ⟨⟨0, 0⟩, none, none, [⟨0, ⟨2, 2⟩⟩, ⟨1, ⟨3, 3⟩⟩], ⟨9, 9⟩, none⟩
    rfl (by rfl) (by simp) (by rfl)
  refine ⟨h.1.trans ?_, h.2⟩
  have : Client.specRetained (1 / 10) (11 / 10)
      ⟨⟨0, 0⟩, none, none, [⟨0, ⟨2, 2⟩⟩, ⟨1, ⟨3, 3⟩⟩], ⟨9, 9⟩, none⟩ =
      [⟨0, ⟨2, 2⟩⟩, ⟨1, ⟨3, 3⟩⟩] := by
    norm_num [Client.specRetained]
  rw [this]
  have hdisp : Client.specDisplayed (1 / 10) (11 / 10)
      ⟨⟨0, 0⟩, none, none, [⟨0, ⟨2, 2⟩⟩, ⟨1, ⟨3, 3⟩⟩], ⟨9, 9⟩, none⟩ =
      ⟨3, 3⟩ := by
    unfold Client.specDisplayed
    rw [this]
    norm_num [List.find?]
  rw [hdisp]

/-! ## Delta replication payload (C3) -/

/-- C3 (code bug, failing input): evaluated on a first send — one player
entity at `(0,0)` owned by player 7, empty `last_states`, the entity in
player 7's view, tick 7 — `send_delta_updates` emits
`DeltaUpdate{tick = 7, deltas = [FullState{tile_pos, player_id}]}` on the
unreliable channel and updates `last_sent`.  The schema the server builds
(`netcode::DeltaType`, modelled exactly) has **no** `last_processed_input`
field at all, so the delta cannot carry the reconciliation watermark the
claim (and the client's `messages::DeltaType` schema) requires. -/
theorem c3_full_state_carries_no_input_watermark :
    Server.send_delta_updates
      [(1, ⟨⟨0, 0⟩, some ⟨7⟩, ⟨[], none⟩, false, none, none, none⟩)]
      [] [(⟨7⟩, [1])] 7 =
      ([(1, ⟨⟨0, 0⟩, 7⟩)],
       [Server.Event.unreliableTo ⟨7⟩
         (.DeltaUpdate 7 [⟨1, .FullState ⟨0, 0⟩ (some ⟨7⟩)⟩])]) := by
  decide

/-- C7 witness: dequeuing `ChopTree` at time 0 schedules completion at
3.0 s = 5 ticks, its `tick_delay` reports 4, and a mid-move step advance
at time 3/5 reschedules one tick later. -/
theorem c7_scheduled_durations_witness :
    (Server.process_action_queue ⟨[.ChopTree 1], none⟩ ⟨0, 0⟩ 0).1.current_action =
      some ⟨.ChopTree 1, 0, 3, 0⟩ ∧
    GameAction.tick_delay (.ChopTree 1) = 4 ∧
    (Server.process_action_queue
        ⟨[], some ⟨.Move [⟨0, 0⟩, ⟨1, 0⟩], 0, 3 / 5, 0⟩⟩ ⟨0, 0⟩
        (3 / 5)).1.current_action =
      some ⟨.Move [⟨0, 0⟩, ⟨1, 0⟩], 0, 3 / 5 + 1 * (3 / 5 : Rat), 1⟩ := by
  refine ⟨?_, ?_, ?_⟩
  · have h := (c7_scheduled_durations (.ChopTree 1) [] ⟨0, 0⟩ 0).1
    rw [h]
    norm_num [specTickCount, TICK_RATE]
  · exact (c7_scheduled_durations (.ChopTree 1) [] ⟨0, 0⟩ 0).2.2.1 1 rfl
  · have h := (c7_scheduled_durations (.ChopTree 1) [] ⟨0, 0⟩ (3 / 5)).2.1
      ⟨.Move [⟨0, 0⟩, ⟨1, 0⟩], 0, 3 / 5, 0⟩ [⟨0, 0⟩, ⟨1, 0⟩] rfl
      (by norm_num) (by norm_num)
    rw [h]
    norm_num [TICK_RATE]

end GameCore
